import Mathlib

/-!
Shallow embedding of the ERC-8004 catalog sync engine
(`src/scripts/sync.mjs` of the repository) and proofs about it.

JavaScript values that the sync engine manipulates (parsed JSON metadata,
record files, the summary index) are modelled by explicit inductive types;
network effects (RPC calls, HTTP fetches) are modelled by oracle functions
supplied in environment records, where `Except`/`Option` failure results
stand for a rejected promise after the retry wrapper has exhausted its
attempts.  Loops are modelled by fuel-indexed recursion; the fuel supplied
at every call site is shown (or chosen) to be sufficient.
-/

/-- A parsed JSON value, as produced by `JSON.parse`. -/
inductive Json where
  | null
  | bool (b : Bool)
  | num (n : Int)
  | str (s : String)
  | arr (xs : List Json)
  | obj (fields : List (String × Json))
deriving Repr

/-- JavaScript truthiness of a JSON value (`if (v)` / `v || d`). -/
def jsTruthy : Json → Bool
  | .null => false
  | .bool b => b
  | .num n => n != 0
  | .str s => s != ""
  | .arr _ => true
  | .obj _ => true

/-- JavaScript test `v?.length > 0`: true for a nonempty array or string,
false for every other JSON value (their `length` is `undefined`). -/
def jsLenPos : Json → Bool
  | .arr xs => decide (0 < xs.length)
  | .str s => decide (0 < s.length)
  | _ => false

/-- An HTTP response as observed by the sync script: the `ok` flag, the
status code, and the parsed JSON body (`none` when `res.json()` rejects). -/
structure HttpResponse where
  ok : Bool
  status : Nat
  jsonBody : Option Json
deriving Repr

/-- Oracle environment for the content resolver `parseAgentURI`:
base64 decoding (total and lenient, as `Buffer.from(_, "base64")`),
percent decoding (`none` models a `URIError`), `JSON.parse` (`none` models
a parse exception), and `fetch` (`none` models a network failure or
timeout, i.e. a rejected promise). -/
structure ResolveEnv where
  base64Decode : String → String
  percentDecode : String → Option String
  parseJson : String → Option Json
  httpFetch : String → Option HttpResponse

/-- Outcome of `parseAgentURI`: a returned JSON document, the JavaScript
value `undefined` (the function body falls through without a `return`),
or a rejection of the returned promise that escapes the function. -/
inductive ResolveResult where
  | doc (j : Json)
  | undefinedRes
  | thrown
deriving Repr

/-- `s.startsWith(p)` on JavaScript strings, computed on the character
list so that it reduces inside the kernel. -/
def strStarts (s p : String) : Bool :=
  p.data.isPrefixOf s.data

/-- Drop the first `n` characters of a string (used for
`uri.replace(p, "")` when `p` is known to be a leading match). -/
def strDropChars (s : String) (n : Nat) : String :=
  String.mk (s.data.drop n)

/-- Take the first `n` characters of a string (`msg.slice(0, n)`). -/
def strTakeChars (s : String) (n : Nat) : String :=
  String.mk (s.data.take n)

/-- The three IPFS gateway URLs raced by the resolver. -/
def ipfsGateways (cid : String) : List String :=
  ["https://ipfs.io/ipfs/" ++ cid,
   "https://cloudflare-ipfs.com/ipfs/" ++ cid,
   "https://gateway.pinata.cloud/ipfs/" ++ cid]

/-- Outcome of one gateway attempt: the parsed body if the fetch resolved,
`res.ok` held and the body parsed as JSON; otherwise failure. -/
def gatewayOutcome (env : ResolveEnv) (gw : String) : Option Json :=
  match env.httpFetch gw with
  | none => none
  | some res => if res.ok then res.jsonBody else none

/-- Determinization of `Promise.any`: the first successful outcome in
list order (the race winner). -/
def firstSome : List (Option Json) → Option Json
  | [] => none
  | some j :: _ => some j
  | none :: rest => firstSome rest

/-- Shallow embedding of `parseAgentURI` (src/scripts/sync.mjs lines
112-146).  Branches in source order: empty URI, inline base64 JSON,
inline percent-encoded JSON, http(s), ipfs.  In the http branch the
source executes `return res.json()` without `await`, so a body that fails
JSON parsing rejects the promise returned by `parseAgentURI` itself (the
surrounding `try` does not adopt it); a URI matching no branch falls off
the end of the `try` block and the function returns `undefined`. -/
def parseAgentURI (env : ResolveEnv) (uri : String) : ResolveResult :=
  if uri = "" then .doc (.obj [])
  else if strStarts uri "data:application/json;base64," then
    match env.parseJson (env.base64Decode (strDropChars uri ("data:application/json;base64,".length))) with
    | some j => .doc j
    | none => .doc (.obj [])
  else if strStarts uri "data:application/json," then
    match env.percentDecode (strDropChars uri ("data:application/json,".length)) with
    | none => .doc (.obj [])
    | some s =>
      match env.parseJson s with
      | some j => .doc j
      | none => .doc (.obj [])
  else if strStarts uri "http" then
    match env.httpFetch uri with
    | none => .doc (.obj [])
    | some res =>
      match res.jsonBody with
      | some j => .doc j
      | none => .thrown
  else if strStarts uri "ipfs://" then
    match firstSome ((ipfsGateways (strDropChars uri ("ipfs://".length))).map (gatewayOutcome env)) with
    | some j => if jsTruthy j then .doc j else .doc (.obj [])
    | none => .doc (.obj [])
  else .undefinedRes

/-- Whether a resolver outcome is a returned document. -/
def isDocRes : ResolveResult → Bool
  | .doc _ => true
  | _ => false

/-- The URI shapes the resolver recognizes (the guards of its branches). -/
def recognizedURI (uri : String) : Bool :=
  decide (uri = "") ||
  strStarts uri "data:application/json;base64," ||
  strStarts uri "data:application/json," ||
  strStarts uri "http" ||
  strStarts uri "ipfs://"

/-- The two chains the sync engine mirrors. -/
inductive Chain where
  | ethereum
  | base
deriving Repr, DecidableEq

/-- The chain name string stored in records and queue entries. -/
def chainName : Chain → String
  | .ethereum => "ethereum"
  | .base => "base"

/-- Scan floor for Ethereum (`ETH_START_BLOCK`). -/
def ETH_START_BLOCK : Nat := 21000000

/-- Log-query window size for Ethereum (`ETH_BLOCK_CHUNK`). -/
def ETH_BLOCK_CHUNK : Nat := 5000

/-- Scan floor for Base (`BASE_START_BLOCK`). -/
def BASE_START_BLOCK : Nat := 41500000

/-- Log-query window size for Base (`BASE_BLOCK_CHUNK`). -/
def BASE_BLOCK_CHUNK : Nat := 10000

/-- Per-chain window size, as selected by `label.includes("Base")`. -/
def chunkOf : Chain → Nat
  | .ethereum => ETH_BLOCK_CHUNK
  | .base => BASE_BLOCK_CHUNK

/-- A mint `Transfer` log event (already filtered to `from = ZERO_ADDRESS`
by the log query): token id, recipient, block number, transaction hash. -/
structure LogEvent where
  tokenId : Nat
  toAddr : String
  blockNumber : Nat
  txHash : String
deriving Repr, DecidableEq

/-- The per-token mint data accumulated by the scanner. -/
structure MintInfo where
  tokenId : Nat
  toAddr : String
  blockNumber : Nat
  txHash : String
deriving Repr, DecidableEq

/-- The mint data extracted from one log event. -/
def mintOf (e : LogEvent) : MintInfo :=
  { tokenId := e.tokenId, toAddr := e.toAddr, blockNumber := e.blockNumber, txHash := e.txHash }

/-- `allMints.get(k)` on the insertion-ordered map, modelled as an
association list. -/
def lookupMint (m : List (Nat × MintInfo)) (k : Nat) : Option MintInfo :=
  (m.find? (fun p => p.1 == k)).map Prod.snd

/-- One iteration of the inner `for (const log of logs)` loop of the scanner:
insert the event keyed by its token id unless the key is already present
(`if (!allMints.has(tokenId))` — first-seen wins). -/
def insertLog (m : List (Nat × MintInfo)) (e : LogEvent) : List (Nat × MintInfo) :=
  if (lookupMint m e.tokenId).isSome then m else m ++ [(e.tokenId, mintOf e)]

/-- The inner scanner loop over the events of one window. -/
def insertLogs (m : List (Nat × MintInfo)) (logs : List LogEvent) : List (Nat × MintInfo) :=
  logs.foldl insertLog m

/-- The window loop of `getMintEvents` (src/scripts/sync.mjs lines
156-189), fuel-indexed.  `logsOf lo hi` is the outcome of the retried log
query for window `[lo, hi]`; `Except.error` models exhausted retries, in
which case the events of the window are skipped and the loop continues.  One
unit of fuel is spent per window; since every window covers at least one
block (for a positive chunk size), `toBlock + 1 - fromBlock` units
suffice. -/
def mintScanLoop (logsOf : Nat → Nat → Except Unit (List LogEvent)) (chunk : Nat) :
    Nat → Nat → Nat → List (Nat × MintInfo) → List (Nat × MintInfo)
  | 0, _, _, acc => acc
  | fuel + 1, current, endB, acc =>
    if current ≤ endB then
      let chunkEnd := if endB < current + chunk then endB else current + chunk - 1
      let acc2 :=
        match logsOf current chunkEnd with
        | .ok logs => insertLogs acc logs
        | .error _ => acc
      mintScanLoop logsOf chunk fuel (chunkEnd + 1) endB acc2
    else acc

/-- The window-ordered concatenation of the events of the successful
windows of a scan (failed windows contribute nothing), used to state the
first-seen deduplication property. -/
def scanLogsLoop (logsOf : Nat → Nat → Except Unit (List LogEvent)) (chunk : Nat) :
    Nat → Nat → Nat → List LogEvent
  | 0, _, _ => []
  | fuel + 1, current, endB =>
    if current ≤ endB then
      let chunkEnd := if endB < current + chunk then endB else current + chunk - 1
      (match logsOf current chunkEnd with
       | .ok logs => logs
       | .error _ => []) ++ scanLogsLoop logsOf chunk fuel (chunkEnd + 1) endB
    else []

/-- `getMintEvents` (src/scripts/sync.mjs lines 148-193): walk
`[fromBlock, toBlock]` in chunk-sized windows for the given chain,
accumulating first-seen mints. -/
def getMintEvents (logsOf : Nat → Nat → Except Unit (List LogEvent))
    (fromBlock toBlock : Nat) (chain : Chain) : List (Nat × MintInfo) :=
  mintScanLoop logsOf (chunkOf chain) (toBlock + 1 - fromBlock) fromBlock toBlock []

/-- Oracle environment for the ledger contract reads used by the entity
fetcher.  Each call is already wrapped in `withRetry`; an `Except.error`
outcome models a rejection after the retry ceiling was exhausted, carrying
the error message. -/
structure LedgerEnv where
  tokenURI : Chain → Nat → Except String String
  ownerOf : Chain → Nat → Except String String

/-- A successfully assembled entity record (the success return of
`fetchAgent`, src/scripts/sync.mjs lines 214-228). -/
structure OkRecord where
  id : Nat
  owner : String
  chain : String
  name : Json
  description : Json
  image : Json
  active : Json
  x402Support : Json
  services : Json
  registeredBlock : Json
  txHash : Json
  rawMetadata : Json
  syncedAt : String
deriving Repr

/-- An error-tagged entity record (the catch return of `fetchAgent`,
src/scripts/sync.mjs line 230). -/
structure ErrRecord where
  id : Nat
  errorMsg : String
  chain : String
  syncedAt : String
deriving Repr, DecidableEq

/-- An entity record file content: exactly one of the two shapes
`fetchAgent` can return. -/
inductive AgentRecord where
  | ok (r : OkRecord)
  | err (e : ErrRecord)
deriving Repr

/-- The `id` field of the record. -/
def AgentRecord.recId : AgentRecord → Nat
  | .ok r => r.id
  | .err e => e.id

/-- The `chain` field of the record. -/
def AgentRecord.recChain : AgentRecord → String
  | .ok r => r.chain
  | .err e => e.chain

/-- JavaScript test `agent.error` (the error field is absent on success
records, hence falsy there; error messages sliced from `err.message` are
truthy). -/
def AgentRecord.isErr : AgentRecord → Bool
  | .ok _ => false
  | .err _ => true

/-- Property lookup `metadata.k` on a non-nullish JavaScript value:
present fields of an object are found, everything else (primitives,
arrays, missing fields) yields `undefined`, modelled as `none`. -/
def lookupField : Json → String → Option Json
  | .obj fs, k => (fs.find? (fun p => p.1 == k)).map Prod.snd
  | _, _ => none

/-- JavaScript `v || dflt` applied to a possibly-undefined field value. -/
def jsOr (v : Option Json) (dflt : Json) : Json :=
  match v with
  | some j => if jsTruthy j then j else dflt
  | none => dflt

/-- JavaScript `v ?? dflt` applied to a possibly-undefined field value
(`null` is also nullish). -/
def jsNullish (v : Option Json) (dflt : Json) : Json :=
  match v with
  | some .null => dflt
  | some j => j
  | none => dflt

/-- Record assembly of `fetchAgent` (src/scripts/sync.mjs lines 214-228):
the field fallbacks applied to the resolved metadata document.
`registeredBlock` is `mintInfo?.blockNumber || null` (a block number of 0
is falsy in JavaScript), `txHash` is `mintInfo?.txHash || null`. -/
def assembleAgent (id : Nat) (owner : String) (chainStr : String) (md : Json)
    (mintInfo : Option MintInfo) (now : String) : OkRecord :=
  { id := id
    owner := owner
    chain := chainStr
    name := jsOr (lookupField md "name") (.str ("Agent #" ++ toString id))
    description := jsOr (lookupField md "description") (.str "")
    image := jsOr (lookupField md "image") (.str "")
    active := jsNullish (lookupField md "active") (.bool true)
    x402Support := jsNullish (lookupField md "x402Support") (.bool false)
    services := jsOr (lookupField md "services") (.arr [])
    registeredBlock :=
      match mintInfo with
      | some mi => if mi.blockNumber = 0 then .null else .num mi.blockNumber
      | none => .null
    txHash :=
      match mintInfo with
      | some mi => if mi.txHash = "" then .null else .str mi.txHash
      | none => .null
    rawMetadata := md
    syncedAt := now }

/-- The body of the `try` block of `fetchAgent`: contract reads, metadata
resolution, record assembly.  Any rejection or thrown `TypeError`
(property access on `undefined` or `null` metadata) surfaces as
`Except.error` and is turned into an error record by the catch. -/
def fetchAgentInner (lenv : LedgerEnv) (renv : ResolveEnv) (now : String)
    (client : Chain) (id : Nat) (mintInfo : Option MintInfo) : Except String OkRecord :=
  match lenv.tokenURI client id with
  | .error e => .error e
  | .ok uri =>
    match lenv.ownerOf client id with
    | .error e => .error e
    | .ok owner =>
      match parseAgentURI renv uri with
      | .thrown => .error "metadata fetch rejected"
      | .undefinedRes => .error "TypeError: undefined metadata"
      | .doc .null => .error "TypeError: null metadata"
      | .doc md => .ok (assembleAgent id owner (chainName client) md mintInfo now)

/-- `fetchAgent` (src/scripts/sync.mjs lines 195-232): always returns a
record; the catch converts any failure into an error-tagged record with
`id`, the sliced message, `chain: "unknown"` and `syncedAt`. -/
def fetchAgent (lenv : LedgerEnv) (renv : ResolveEnv) (now : String)
    (client : Chain) (id : Nat) (mintInfo : Option MintInfo) : AgentRecord :=
  match fetchAgentInner lenv renv now client id mintInfo with
  | .ok r => .ok r
  | .error e => .err { id := id, errorMsg := strTakeChars e 100, chain := "unknown", syncedAt := now }

/-- One entry of the fetch queue (`{ id, mintInfo, chain }` pushed by
`syncAgents`, src/scripts/sync.mjs line 295). -/
structure QueueEntry where
  id : Nat
  mintInfo : MintInfo
  chain : Chain
deriving Repr, DecidableEq

/-- The agents directory, modelled as an association list from the
integer file stem (the record field `id`) to the record written there;
writing to an existing stem overwrites. -/
abbrev Files := List (Nat × AgentRecord)

/-- Read the record file for a given id, if present. -/
def lookupFile (files : Files) (id : Nat) : Option AgentRecord :=
  (files.find? (fun p => p.1 == id)).map Prod.snd

/-- `writeFileSync(join(AGENTS_DIR, id + ".json"), record)`: overwrite the
binding for `id` when present, otherwise append it. -/
def setFile (files : Files) (id : Nat) (a : AgentRecord) : Files :=
  if (files.find? (fun p => p.1 == id)).isSome
  then files.map (fun p => if p.1 == id then (id, a) else p)
  else files ++ [(id, a)]

/-- The file name a record is persisted under: keyed by `id` alone. -/
def agentFileName (a : AgentRecord) : String :=
  toString a.recId ++ ".json"

/-- Running counters for one chain. -/
structure ChainStats where
  active : Nat
  inactive : Nat
  errors : Nat
  x402 : Nat
  withServices : Nat
deriving Repr, DecidableEq

/-- The zeroed counters the fetch phase starts from. -/
def zeroChainStats : ChainStats := ⟨0, 0, 0, 0, 0⟩

/-- Running counters for both chains (`stats` in `syncAgents`). -/
structure SyncStats where
  ethereum : ChainStats
  base : ChainStats
deriving Repr, DecidableEq

/-- The zeroed stats accumulator. -/
def zeroSyncStats : SyncStats := ⟨zeroChainStats, zeroChainStats⟩

/-- Fold one successful record into the counters of one chain (the else branch
of the per-record loop, src/scripts/sync.mjs lines 341-346). -/
def bumpStats (s : ChainStats) (r : OkRecord) : ChainStats :=
  { s with
    active := if jsTruthy r.active then s.active + 1 else s.active
    inactive := if jsTruthy r.active then s.inactive else s.inactive + 1
    x402 := if jsTruthy r.x402Support then s.x402 + 1 else s.x402
    withServices := if jsLenPos r.services then s.withServices + 1 else s.withServices }

/-- Grow the in-memory set of known ids (`existingIds.add`), preserving
insertion order. -/
def addExisting (ex : List Nat) (id : Nat) : List Nat :=
  if ex.contains id then ex else ex ++ [id]

/-- The per-record body of the batch loop (src/scripts/sync.mjs lines
337-351): bucket the counters of the record by `agent.chain === "ethereum"`
(so error records, whose chain is `"unknown"`, land in the base bucket),
add successful ids to the known set, and write the record file keyed by
`agent.id`. -/
def applyRecord (acc : SyncStats × List Nat × Files) (a : AgentRecord) :
    SyncStats × List Nat × Files :=
  let stats := acc.1
  let ex := acc.2.1
  let files := acc.2.2
  let stats2 :=
    match a with
    | .err e =>
      if e.chain = "ethereum"
      then { stats with ethereum := { stats.ethereum with errors := stats.ethereum.errors + 1 } }
      else { stats with base := { stats.base with errors := stats.base.errors + 1 } }
    | .ok r =>
      if r.chain = "ethereum"
      then { stats with ethereum := bumpStats stats.ethereum r }
      else { stats with base := bumpStats stats.base r }
  let ex2 :=
    match a with
    | .ok r => addExisting ex r.id
    | .err _ => ex
  (stats2, ex2, setFile files a.recId a)

/-- The summary index (`index.json`). -/
structure IndexStats where
  ethereum : ChainStats
  base : ChainStats
  totalErrors : Nat
deriving Repr, DecidableEq

/-- The persisted `index.json` document. -/
structure SyncIndex where
  lastSync : Option String
  ethLastBlock : Nat
  baseLastBlock : Nat
  totalAgents : Nat
  agents : List Nat
  stats : Option IndexStats
  pendingAgentIds : Option (List QueueEntry)
deriving Repr

/-- The default index used when `index.json` does not exist. -/
def defaultIndex : SyncIndex :=
  { lastSync := none, ethLastBlock := 0, baseLastBlock := 0, totalAgents := 0,
    agents := [], stats := none, pendingAgentIds := none }

/-- `batch[0].chain === "ethereum" ? ethClient : baseClient`: the client
handle chosen for a whole batch from the chain of its first entry. -/
def pickClient (c : Chain) : Chain :=
  if c = Chain.ethereum then Chain.ethereum else Chain.base

/-- The records produced for one batch: every entry is fetched through
the single client chosen for the batch. -/
def batchResults (lenv : LedgerEnv) (renv : ResolveEnv) (now : String)
    (client : Chain) (batch : List QueueEntry) : List AgentRecord :=
  batch.map (fun q => fetchAgent lenv renv now client q.id (some q.mintInfo))

/-- The state threaded through the fetch loop: the unprocessed queue
tail, the stats accumulator, the known-id set, the agents directory, the
in-memory index object, and the last index content durably written
(`none` when nothing has been written yet this run). -/
structure LoopState where
  rest : List QueueEntry
  stats : SyncStats
  existing : List Nat
  files : Files
  inMem : SyncIndex
  persisted : Option SyncIndex
deriving Repr

/-- One iteration of the batch loop body (src/scripts/sync.mjs lines
331-361), without the deadline check: slice the next batch, pick the
client from the first entry of the batch, fetch all entries concurrently,
fold the results into stats/known-ids/files, then persist the index with
`pendingAgentIds` set to the shrunken tail. -/
def runBatch (lenv : LedgerEnv) (renv : ResolveEnv) (now : String) (P : Nat)
    (s : LoopState) : LoopState :=
  match s.rest with
  | [] => s
  | q :: _ =>
    let results := batchResults lenv renv now (pickClient q.chain) (s.rest.take P)
    let acc := results.foldl applyRecord (s.stats, s.existing, s.files)
    let rest2 := s.rest.drop P
    let idx2 := { s.inMem with pendingAgentIds := some rest2 }
    { rest := rest2, stats := acc.1, existing := acc.2.1, files := acc.2.2,
      inMem := idx2, persisted := some idx2 }

/-- Iterate the batch body `j` times (used to talk about the state after
batch `j`, e.g. at an interruption point). -/
def fetchSteps (lenv : LedgerEnv) (renv : ResolveEnv) (now : String) (P : Nat) :
    Nat → LoopState → LoopState
  | 0, s => s
  | j + 1, s => fetchSteps lenv renv now P j (runBatch lenv renv now P s)

/-- The full fetch loop (src/scripts/sync.mjs lines 320-362),
fuel-indexed: before each batch compare the elapsed wall-clock time at
the `k`-th check against the deadline; on trip persist the remaining tail
as `pendingAgentIds` and stop with `timedOut = true`; otherwise run the
batch and continue.  Returns the final state and the `timedOut` flag. -/
def fetchLoopGo (lenv : LedgerEnv) (renv : ResolveEnv) (now : String)
    (P deadline : Nat) (elapsed : Nat → Nat) :
    Nat → Nat → LoopState → LoopState × Bool
  | 0, _, s => (s, false)
  | fuel + 1, k, s =>
    match s.rest with
    | [] => (s, false)
    | _ :: _ =>
      if deadline < elapsed k then
        let idx2 := { s.inMem with pendingAgentIds := some s.rest }
        ({ s with inMem := idx2, persisted := some idx2 }, true)
      else
        fetchLoopGo lenv renv now P deadline elapsed fuel (k + 1)
          (runBatch lenv renv now P s)

/-- Number of batches a queue of length `n` is processed in. -/
def numBatches (n P : Nat) : Nat := (n + P - 1) / P

/-- Ordinal of the first deadline check that trips, among the next `b`
checks starting at ordinal `k` (`none` when none of them trips). -/
def firstTrip (elapsed : Nat → Nat) (deadline : Nat) : Nat → Nat → Option Nat
  | _, 0 => none
  | k, b + 1 => if deadline < elapsed k then some k else firstTrip elapsed deadline (k + 1) b

/-- The full oracle environment of one `syncAgents` run: ledger reads,
content resolution, the clock value stamped into records, current chain
heads, per-chain log-query oracles, the elapsed wall-clock time observed
at the `k`-th deadline check, the deadline, the batch size
(`PARALLEL_FETCHES`) and the `FORCE_REFRESH` flag. -/
structure SyncEnv where
  lenv : LedgerEnv
  renv : ResolveEnv
  now : String
  ethHead : Nat
  baseHead : Nat
  ethLogs : Nat → Nat → Except Unit (List LogEvent)
  baseLogs : Nat → Nat → Except Unit (List LogEvent)
  elapsed : Nat → Nat
  deadline : Nat
  parallelFetches : Nat
  forceRefresh : Bool

/-- The persistent state `syncAgents` reads and writes: the agents
directory and the index file (absent before the first run). -/
structure World where
  files : Files
  indexFile : Option SyncIndex
deriving Repr

/-- How a run ends: normal completion (`DONE`) or the planned early exit
after a deadline trip (`CHECKPOINT_EXIT`); both are non-error returns of
`syncAgents`. -/
inductive RunResult where
  | done
  | checkpointExit
deriving Repr, DecidableEq

/-- Load `index.json`, defaulting when absent. -/
def loadIndex (w : World) : SyncIndex :=
  w.indexFile.getD defaultIndex

/-- The Ethereum from-block (src/scripts/sync.mjs lines 275-277):
the configured floor under force-refresh or a zero checkpoint, otherwise
checkpoint + 1. -/
def ethFromBlockOf (force : Bool) (idx : SyncIndex) : Nat :=
  if force || idx.ethLastBlock = 0 then ETH_START_BLOCK else idx.ethLastBlock + 1

/-- The Base from-block (src/scripts/sync.mjs lines 279-281). -/
def baseFromBlockOf (force : Bool) (idx : SyncIndex) : Nat :=
  if force || idx.baseLastBlock = 0 then BASE_START_BLOCK else idx.baseLastBlock + 1

/-- The resumption test (src/scripts/sync.mjs line 258): the pending
queue from a previous interrupted run is taken iff force-refresh is off
and a non-empty `pendingAgentIds` array exists. -/
def resumePending (force : Bool) (idx : SyncIndex) : Option (List QueueEntry) :=
  if force then none
  else
    match idx.pendingAgentIds with
    | some l => if l.isEmpty then none else some l
    | none => none

/-- Build the fetch queue from the two mint maps (src/scripts/sync.mjs
lines 292-297): keep mints whose id is not already persisted (all of
them under force-refresh); the chain is `"ethereum"` iff the id occurs in
the Ethereum mint map. -/
def buildQueue (ethMints baseMints : List (Nat × MintInfo)) (force : Bool)
    (existing : List Nat) : List QueueEntry :=
  ((ethMints ++ baseMints).filter (fun p => force || !(existing.contains p.1))).map
    (fun p =>
      { id := p.1, mintInfo := p.2,
        chain := if (lookupMint ethMints p.1).isSome then Chain.ethereum else Chain.base })

/-- Outcome of the plan phase: the in-memory index after it, the index
content durably written during it (`none` when nothing was written), the
fetch queue, and the per-chain block values carried into finalization. -/
structure PlanResult where
  inMem : SyncIndex
  written : Option SyncIndex
  ids : List QueueEntry
  ethBlock : Nat
  baseBlock : Nat
deriving Repr

/-- The plan phase of `syncAgents` (src/scripts/sync.mjs lines 252-310):
resume from a pending queue when present (skipping scanning entirely and
keeping the saved block checkpoints), otherwise scan both chains from
checkpoint + 1 (or the floor) to the current head, build the queue, and —
when it is non-empty — persist the queue and the new head checkpoints
before any fetching begins. -/
def planPhase (env : SyncEnv) (idx0 : SyncIndex) (existing0 : List Nat) : PlanResult :=
  match resumePending env.forceRefresh idx0 with
  | some l =>
    { inMem := idx0, written := none, ids := l,
      ethBlock := idx0.ethLastBlock, baseBlock := idx0.baseLastBlock }
  | none =>
    let ethMints := getMintEvents env.ethLogs (ethFromBlockOf env.forceRefresh idx0) env.ethHead .ethereum
    let baseMints := getMintEvents env.baseLogs (baseFromBlockOf env.forceRefresh idx0) env.baseHead .base
    let ids := buildQueue ethMints baseMints env.forceRefresh existing0
    if ids.isEmpty then
      { inMem := idx0, written := none, ids := ids,
        ethBlock := env.ethHead, baseBlock := env.baseHead }
    else
      let idx1 := { idx0 with pendingAgentIds := some ids, ethLastBlock := env.ethHead, baseLastBlock := env.baseHead }
      { inMem := idx1, written := some idx1, ids := ids,
        ethBlock := env.ethHead, baseBlock := env.baseHead }

/-- The finalize tally (src/scripts/sync.mjs lines 369-383): for every
known id not in the queue of this run, re-read its record file and fold its
status into the stats — skipping error records (`if (!agent.error)`) and
unreadable files. -/
def tallyExisting (files : Files) (ids : List QueueEntry) (stats : SyncStats)
    (existing : List Nat) : SyncStats :=
  existing.foldl
    (fun st id =>
      if (ids.find? (fun x => x.id == id)).isSome then st
      else
        match lookupFile files id with
        | none => st
        | some (.err _) => st
        | some (.ok r) =>
          if r.chain = "ethereum" then { st with ethereum := bumpStats st.ethereum r }
          else { st with base := bumpStats st.base r })
    stats

/-- Insertion step of the descending sort `(a, b) => b - a`. -/
def insertDesc (x : Nat) : List Nat → List Nat
  | [] => [x]
  | y :: ys => if y ≤ x then x :: y :: ys else y :: insertDesc x ys

/-- `Array.from(existingIds).sort((a, b) => b - a)`. -/
def sortDesc (l : List Nat) : List Nat :=
  l.foldr insertDesc []

/-- The initial loop state of a run: queue from the plan phase, zeroed
stats, known ids enumerated from the agents directory, and the plan
in-memory and persisted index of that phase. -/
def loopInit (env : SyncEnv) (w : World) : LoopState :=
  let idx0 := loadIndex w
  let plan := planPhase env idx0 (w.files.map Prod.fst)
  { rest := plan.ids, stats := zeroSyncStats, existing := w.files.map Prod.fst,
    files := w.files, inMem := plan.inMem,
    persisted := match plan.written with | some i => some i | none => w.indexFile }

/-- `syncAgents` (src/scripts/sync.mjs lines 234-407): plan, fetch in
batches under the deadline, then — only when the queue drained without a
trip — finalize: tally untouched records, rebuild and persist the index
with `pendingAgentIds` cleared.  On a trip the run returns after the
checkpoint write, leaving the index otherwise untouched. -/
def syncAgents (env : SyncEnv) (w : World) : World × RunResult :=
  let idx0 := loadIndex w
  let plan := planPhase env idx0 (w.files.map Prod.fst)
  let s0 := loopInit env w
  let out := fetchLoopGo env.lenv env.renv env.now env.parallelFetches env.deadline
    env.elapsed plan.ids.length 0 s0
  let s1 := out.1
  if out.2 then
    ({ files := s1.files, indexFile := s1.persisted }, .checkpointExit)
  else
    let statsF := tallyExisting s1.files plan.ids s1.stats s1.existing
    let allIds := sortDesc s1.existing
    let finalIdx : SyncIndex :=
      { lastSync := some env.now
        ethLastBlock := plan.ethBlock
        baseLastBlock := plan.baseBlock
        totalAgents := allIds.length
        agents := allIds
        stats := some { ethereum := statsF.ethereum, base := statsF.base,
                        totalErrors := statsF.ethereum.errors + statsF.base.errors }
        pendingAgentIds := none }
    ({ files := s1.files, indexFile := some finalIdx }, .done)

/-- A record counts as active: successful with a truthy `active` field. -/
def recOkActive : AgentRecord → Bool
  | .ok r => jsTruthy r.active
  | .err _ => false

/-- A record counts as inactive: successful with a falsy `active` field. -/
def recOkInactive : AgentRecord → Bool
  | .ok r => !jsTruthy r.active
  | .err _ => false

/-- A record counts for the x402 counter. -/
def recOkX402 : AgentRecord → Bool
  | .ok r => jsTruthy r.x402Support
  | .err _ => false

/-- A record counts for the withServices counter. -/
def recOkServices : AgentRecord → Bool
  | .ok r => jsLenPos r.services
  | .err _ => false

/-- Count the record files satisfying a predicate. -/
def countRecords (files : Files) (p : AgentRecord → Bool) : Nat :=
  (files.filter (fun kv => p kv.2)).length

/-- Modelled from the spec: the direct recomputation of the per-chain
counters from the full set of record files on disk — a record contributes
to the chain named by its `chain` field. -/
def recomputeChain (files : Files) (c : String) : ChainStats :=
  { active := countRecords files (fun a => a.recChain == c && recOkActive a)
    inactive := countRecords files (fun a => a.recChain == c && recOkInactive a)
    errors := countRecords files (fun a => a.recChain == c && a.isErr)
    x402 := countRecords files (fun a => a.recChain == c && recOkX402 a)
    withServices := countRecords files (fun a => a.recChain == c && recOkServices a) }

/-- Modelled from the spec: the direct recomputation of the index stats
from the full set of record files on disk. -/
def recomputeStats (files : Files) : IndexStats :=
  { ethereum := recomputeChain files "ethereum"
    base := recomputeChain files "base"
    totalErrors := (recomputeChain files "ethereum").errors + (recomputeChain files "base").errors }

/-- Well-formedness of a record as `fetchAgent` produces it: a success
record is tagged `"ethereum"` or `"base"`, an error record `"unknown"`. -/
def recordWF : AgentRecord → Prop
  | .ok r => r.chain = "ethereum" ∨ r.chain = "base"
  | .err e => e.chain = "unknown"

/-- Well-formedness of the agents directory: distinct file stems, every
file stem equal to the `id` of its record, every record as produced by
`fetchAgent`. -/
def wfFiles (files : Files) : Prop :=
  (files.map Prod.fst).Nodup ∧ ∀ p ∈ files, p.1 = p.2.recId ∧ recordWF p.2

/-- An inert resolver environment for concrete evaluations. -/
def trivialResolveEnv : ResolveEnv :=
  { base64Decode := fun _ => ""
    percentDecode := fun _ => none
    parseJson := fun _ => none
    httpFetch := fun _ => none }

/-- A resolver environment whose HTTP fetch succeeds but whose response
body fails JSON parsing. -/
def badBodyResolveEnv : ResolveEnv :=
  { base64Decode := fun _ => ""
    percentDecode := fun _ => none
    parseJson := fun _ => none
    httpFetch := fun _ => some { ok := true, status := 200, jsonBody := none } }

/-- A ledger environment whose reads always succeed with fixed values. -/
def trivialLedgerEnv : LedgerEnv :=
  { tokenURI := fun _ _ => .ok ""
    ownerOf := fun _ _ => .ok "0xowner" }

/-- Concrete run for the failed-window checkpoint analysis: the previous
Ethereum checkpoint is 20999999, the head is 21009999, so the scan covers
the two windows [21000000, 21004999] (log query fails after retries) and
[21005000, 21009999] (one mint, id 8).  Base contributes nothing. -/
def c1Env : SyncEnv :=
  { lenv := trivialLedgerEnv
    renv := trivialResolveEnv
    now := "2026-01-01T00:00:00Z"
    ethHead := 21009999
    baseHead := 0
    ethLogs := fun lo _ => if lo = 21005000 then .ok [⟨8, "0xto", 21005007, "0xtx8"⟩] else .error ()
    baseLogs := fun _ _ => .ok []
    elapsed := fun _ => 0
    deadline := 19800000
    parallelFetches := 10
    forceRefresh := false }

/-- The world the failed-window run starts from: no record files, an
index whose Ethereum checkpoint is 20999999. -/
def c1World : World :=
  { files := [], indexFile := some { defaultIndex with ethLastBlock := 20999999 } }

/-- A success record for token id 5 on Ethereum. -/
def c9RecEth : AgentRecord :=
  .ok { id := 5, owner := "0xa", chain := "ethereum", name := .str "A",
        description := .str "", image := .str "", active := .bool true,
        x402Support := .bool false, services := .arr [], registeredBlock := .null,
        txHash := .null, rawMetadata := .obj [], syncedAt := "T1" }

/-- A success record for token id 5 on Base — a distinct entity under the
intended (chain, id) key. -/
def c9RecBase : AgentRecord :=
  .ok { id := 5, owner := "0xb", chain := "base", name := .str "B",
        description := .str "", image := .str "", active := .bool true,
        x402Support := .bool false, services := .arr [], registeredBlock := .null,
        txHash := .null, rawMetadata := .obj [], syncedAt := "T2" }

/-- Queue entry for token 1 on Ethereum (witness scenarios). -/
def qeEth1 : QueueEntry := { id := 1, mintInfo := ⟨1, "0xa", 10, "0xt1"⟩, chain := .ethereum }

/-- Queue entry for token 2 on Base (witness scenarios). -/
def qeBase2 : QueueEntry := { id := 2, mintInfo := ⟨2, "0xb", 20, "0xt2"⟩, chain := .base }

/-- A ledger environment that fails every read for token id 2 and
succeeds for every other token (isolation scenarios). -/
def failTwoLedgerEnv : LedgerEnv :=
  { tokenURI := fun _ id => if id = 2 then .error "boom" else .ok ""
    ownerOf := fun _ _ => .ok "0xowner" }

/-- Environment for the deadline-trip scenario: batch size 1, deadline
50 ms, elapsed time 0 at the first check and 100 at every later one. -/
def c3Env : SyncEnv :=
  { lenv := trivialLedgerEnv
    renv := trivialResolveEnv
    now := "T3"
    ethHead := 0
    baseHead := 0
    ethLogs := fun _ _ => .ok []
    baseLogs := fun _ _ => .ok []
    elapsed := fun k => if k = 0 then 0 else 100
    deadline := 50
    parallelFetches := 1
    forceRefresh := false }

/-- World for the deadline-trip scenario: a pending queue of two entries
left by a previous interrupted run. -/
def c3World : World :=
  { files := [], indexFile := some { defaultIndex with pendingAgentIds := some [qeEth1, qeBase2] } }

/-- A quiet environment: no mints on either chain, no deadline pressure. -/
def c7Env : SyncEnv :=
  { lenv := trivialLedgerEnv
    renv := trivialResolveEnv
    now := "T7"
    ethHead := 0
    baseHead := 0
    ethLogs := fun _ _ => .ok []
    baseLogs := fun _ _ => .ok []
    elapsed := fun _ => 0
    deadline := 1000
    parallelFetches := 10
    forceRefresh := false }

/-- Componentwise sum of two chain counter blocks. -/
def chainAdd (a b : ChainStats) : ChainStats :=
  { active := a.active + b.active
    inactive := a.inactive + b.inactive
    errors := a.errors + b.errors
    x402 := a.x402 + b.x402
    withServices := a.withServices + b.withServices }

theorem assocFind_append {α : Type} (l : List (Nat × α)) (x : Nat) (v : α) (k : Nat) :
    ((l ++ [(x, v)]).find? (fun p => p.1 == k)) =
      (match l.find? (fun p => p.1 == k) with
       | some w => some w
       | none => if x == k then some (x, v) else none) := by
  induction l with
  | nil => cases h : (x == k) <;> simp [List.find?, h]
  | cons p tl ih =>
    by_cases hp : (p.1 == k) = true
    · simp [List.find?, hp]
    · simp only [List.cons_append, List.find?, hp]
      exact ih

theorem assocFind_none_not_mem {α : Type} (l : List (Nat × α)) (k : Nat)
    (h : l.find? (fun p => p.1 == k) = none) : k ∉ l.map Prod.fst := by
  intro hk
  rcases List.mem_map.1 hk with ⟨p, hp, hfst⟩
  have := List.find?_eq_none.1 h p hp
  simp [hfst] at this

theorem lookupMint_append_single (m : List (Nat × MintInfo)) (x : Nat) (v : MintInfo) (k : Nat) :
    lookupMint (m ++ [(x, v)]) k =
      (match lookupMint m k with
       | some w => some w
       | none => if x == k then some v else none) := by
  unfold lookupMint
  rw [assocFind_append]
  cases h : m.find? (fun p => p.1 == k) <;> cases hx : (x == k) <;> simp [h, hx]

theorem lookupMint_insertLogs (logs : List LogEvent) (m : List (Nat × MintInfo)) (k : Nat) :
    lookupMint (insertLogs m logs) k =
      (match lookupMint m k with
       | some w => some w
       | none => (logs.find? (fun e => e.tokenId == k)).map mintOf) := by
  induction logs generalizing m with
  | nil => cases h : lookupMint m k <;> simp [insertLogs, List.find?, h]
  | cons e tl ih =>
    have step : insertLogs m (e :: tl) = insertLogs (insertLog m e) tl := rfl
    rw [step, ih]
    unfold insertLog
    cases he : (lookupMint m e.tokenId).isSome with
    | true =>
      simp only [he, if_true]
      cases hk : lookupMint m k with
      | some w => simp [hk]
      | none =>
        have hne : (e.tokenId == k) = false := by
          rcases Option.isSome_iff_exists.1 he with ⟨w, hw⟩
          by_cases hek : e.tokenId = k
          · rw [hek] at hw; rw [hw] at hk; cases hk
          · exact beq_eq_false_iff_ne.2 hek
        simp [hk, List.find?, hne]
    | false =>
      simp only [he, Bool.false_eq_true, if_false]
      rw [lookupMint_append_single]
      cases hk : lookupMint m k with
      | some w => simp [hk]
      | none =>
        cases hek : (e.tokenId == k) with
        | true => simp [hk, List.find?, hek]
        | false => simp [hk, List.find?, hek]

theorem keys_insertLog (m : List (Nat × MintInfo)) (e : LogEvent)
    (h : (m.map Prod.fst).Nodup) : ((insertLog m e).map Prod.fst).Nodup := by
  unfold insertLog
  cases he : (lookupMint m e.tokenId).isSome with
  | true => simpa [he]
  | false =>
    simp only [he, Bool.false_eq_true, if_false]
    rw [List.map_append]
    simp only [List.map_cons, List.map_nil]
    rw [List.nodup_append]
    refine ⟨h, List.nodup_singleton _, ?_⟩
    intro a ha hb
    simp only [List.mem_singleton] at hb
    subst hb
    have hnone : m.find? (fun p => p.1 == e.tokenId) = none := by
      unfold lookupMint at he
      cases hf : m.find? (fun p => p.1 == e.tokenId) with
      | none => rfl
      | some w => rw [hf] at he; simp at he
    exact assocFind_none_not_mem m e.tokenId hnone ha

theorem keys_insertLogs (logs : List LogEvent) (m : List (Nat × MintInfo))
    (h : (m.map Prod.fst).Nodup) : ((insertLogs m logs).map Prod.fst).Nodup := by
  induction logs generalizing m with
  | nil => exact h
  | cons e tl ih => exact ih (insertLog m e) (keys_insertLog m e h)

theorem insertLogs_append (m : List (Nat × MintInfo)) (l1 l2 : List LogEvent) :
    insertLogs m (l1 ++ l2) = insertLogs (insertLogs m l1) l2 := by
  unfold insertLogs
  exact List.foldl_append _ _ _ _

theorem mintScanLoop_eq_insertLogs (logsOf : Nat → Nat → Except Unit (List LogEvent))
    (chunk : Nat) (fuel : Nat) :
    ∀ (cur endB : Nat) (acc : List (Nat × MintInfo)),
      mintScanLoop logsOf chunk fuel cur endB acc =
        insertLogs acc (scanLogsLoop logsOf chunk fuel cur endB) := by
  induction fuel with
  | zero => intro cur endB acc; rfl
  | succ n ih =>
    intro cur endB acc
    unfold mintScanLoop scanLogsLoop
    by_cases hc : cur ≤ endB
    · simp only [hc, if_pos]
      cases hl : logsOf cur (if endB < cur + chunk then endB else cur + chunk - 1) with
      | ok logs => rw [ih, insertLogs_append]
      | error u => rw [ih]; rfl
    · simp [hc, insertLogs]

/-- C8: within one mint scan, the resulting entity map contains each
token id exactly once (distinct keys), and the data kept for an id is
that of the first-seen event for it in the window-ordered event stream —
later events for the same id, including duplicates arising from a window
being queried twice, are ignored. -/
theorem c8_scan_dedup_first_seen
    (logsOf : Nat → Nat → Except Unit (List LogEvent)) (fromBlock toBlock : Nat)
    (chain : Chain) (k : Nat) :
    ((getMintEvents logsOf fromBlock toBlock chain).map Prod.fst).Nodup ∧
    lookupMint (getMintEvents logsOf fromBlock toBlock chain) k =
      ((scanLogsLoop logsOf (chunkOf chain) (toBlock + 1 - fromBlock) fromBlock toBlock).find?
        (fun e => e.tokenId == k)).map mintOf := by
  unfold getMintEvents
  rw [mintScanLoop_eq_insertLogs]
  constructor
  · exact keys_insertLogs _ [] (by simp)
  · rw [lookupMint_insertLogs]
    have h0 : lookupMint [] k = none := rfl
    rw [h0]

/-- C5 counterexample: the resolver does not return a document (nor the
empty document) for every URI — a non-empty URI with an unrecognized
scheme makes the function fall off the end of its try block and return
undefined, and an http URI whose fetched body fails JSON parsing makes
the returned promise reject. -/
theorem c5_counterexample_not_always_doc :
    isDocRes (parseAgentURI trivialResolveEnv "ftp://example") = false ∧
    parseAgentURI badBodyResolveEnv "http://a" = ResolveResult.thrown :=
  ⟨rfl, rfl⟩

/-- C5 (amended): for every URI the resolver returns a parsed document
(possibly the empty document) unless the URI is non-empty with an
unrecognized scheme, in which case it returns undefined, or the URI is
an http(s) URI whose fetch resolved but whose body fails JSON parsing,
in which case the rejection of `res.json()` escapes the resolver. -/
theorem c5_resolver_amended (env : ResolveEnv) (uri : String) :
    (∃ j, parseAgentURI env uri = ResolveResult.doc j) ∨
    (parseAgentURI env uri = ResolveResult.undefinedRes ∧ recognizedURI uri = false) ∨
    (parseAgentURI env uri = ResolveResult.thrown ∧ strStarts uri "http" = true ∧
      ∃ res, env.httpFetch uri = some res ∧ res.jsonBody = none) := by
  unfold parseAgentURI
  by_cases h0 : uri = ""
  · rw [if_pos h0]
    exact Or.inl ⟨_, rfl⟩
  · rw [if_neg h0]
    cases h1 : strStarts uri "data:application/json;base64," with
    | true =>
      rw [if_pos rfl]
      cases hp : env.parseJson (env.base64Decode (strDropChars uri ("data:application/json;base64,".length))) with
      | some j => exact Or.inl ⟨j, rfl⟩
      | none => exact Or.inl ⟨_, rfl⟩
    | false =>
      rw [if_neg (by simp)]
      cases h2 : strStarts uri "data:application/json," with
      | true =>
        rw [if_pos rfl]
        cases hd : env.percentDecode (strDropChars uri ("data:application/json,".length)) with
        | none => exact Or.inl ⟨_, rfl⟩
        | some s =>
          dsimp only
          cases hp : env.parseJson s with
          | some j => exact Or.inl ⟨j, rfl⟩
          | none => exact Or.inl ⟨_, rfl⟩
      | false =>
        rw [if_neg (by simp)]
        cases h3 : strStarts uri "http" with
        | true =>
          rw [if_pos rfl]
          cases hf : env.httpFetch uri with
          | none => exact Or.inl ⟨_, rfl⟩
          | some res =>
            dsimp only
            cases hb : res.jsonBody with
            | some j => exact Or.inl ⟨j, rfl⟩
            | none => exact Or.inr (Or.inr ⟨rfl, rfl, res, rfl, hb⟩)
        | false =>
          rw [if_neg (by simp)]
          cases h4 : strStarts uri "ipfs://" with
          | true =>
            rw [if_pos rfl]
            cases hr : firstSome ((ipfsGateways (strDropChars uri ("ipfs://".length))).map (gatewayOutcome env)) with
            | some j =>
              dsimp only
              cases ht : jsTruthy j with
              | true => exact Or.inl ⟨j, by rw [if_pos rfl]⟩
              | false => exact Or.inl ⟨_, by rw [if_neg (by simp)]⟩
            | none => exact Or.inl ⟨_, rfl⟩
          | false =>
            rw [if_neg (by simp)]
            refine Or.inr (Or.inl ⟨rfl, ?_⟩)
            simp [recognizedURI, h0, h1, h2, h3, h4]

/-- C6: the assembled record applies the field fallbacks: a document
lacking `name` yields `"Agent #" + id`, lacking `active` yields `true`,
lacking `x402Support` yields `false`, lacking `services` yields the empty
list; on the empty document all four fallbacks apply together; and when
the ledger reads succeed and resolution yields a (non-null) document,
`fetchAgent` returns exactly this assembly. -/
theorem c6_field_fallbacks (id : Nat) (owner chainStr : String) (md : Json)
    (mi : Option MintInfo) (now : String) :
    (lookupField md "name" = none →
      (assembleAgent id owner chainStr md mi now).name = Json.str ("Agent #" ++ toString id)) ∧
    (lookupField md "active" = none →
      (assembleAgent id owner chainStr md mi now).active = Json.bool true) ∧
    (lookupField md "x402Support" = none →
      (assembleAgent id owner chainStr md mi now).x402Support = Json.bool false) ∧
    (lookupField md "services" = none →
      (assembleAgent id owner chainStr md mi now).services = Json.arr []) ∧
    ((assembleAgent id owner chainStr (Json.obj []) mi now).name = Json.str ("Agent #" ++ toString id) ∧
     (assembleAgent id owner chainStr (Json.obj []) mi now).active = Json.bool true ∧
     (assembleAgent id owner chainStr (Json.obj []) mi now).x402Support = Json.bool false ∧
     (assembleAgent id owner chainStr (Json.obj []) mi now).services = Json.arr []) ∧
    (∀ (lenv : LedgerEnv) (renv : ResolveEnv) (client : Chain) (uri : String),
      lenv.tokenURI client id = Except.ok uri → lenv.ownerOf client id = Except.ok owner →
      parseAgentURI renv uri = ResolveResult.doc md → md ≠ Json.null →
      fetchAgent lenv renv now client id mi =
        AgentRecord.ok (assembleAgent id owner (chainName client) md mi now)) := by
  refine ⟨?_, ?_, ?_, ?_, ⟨rfl, rfl, rfl, rfl⟩, ?_⟩
  · intro h; simp [assembleAgent, jsOr, h]
  · intro h; simp [assembleAgent, jsNullish, h]
  · intro h; simp [assembleAgent, jsNullish, h]
  · intro h; simp [assembleAgent, jsOr, h]
  · intro lenv renv client uri htu how hp hmd
    unfold fetchAgent fetchAgentInner
    rw [htu, how]
    dsimp only
    rw [hp]
    cases md with
    | null => exact absurd rfl hmd
    | bool b => rfl
    | num n => rfl
    | str s => rfl
    | arr xs => rfl
    | obj fs => rfl

/-- C6 witness: the fallbacks evaluated at a concrete empty document. -/
theorem c6_field_fallbacks_witness :
    (assembleAgent 7 "0xo" "ethereum" (Json.obj []) none "T0").name =
      Json.str ("Agent #" ++ toString 7) ∧
    (assembleAgent 7 "0xo" "ethereum" (Json.obj []) none "T0").active = Json.bool true ∧
    (assembleAgent 7 "0xo" "ethereum" (Json.obj []) none "T0").x402Support = Json.bool false ∧
    (assembleAgent 7 "0xo" "ethereum" (Json.obj []) none "T0").services = Json.arr [] ∧
    fetchAgent trivialLedgerEnv trivialResolveEnv "T0" Chain.ethereum 7 none =
      AgentRecord.ok (assembleAgent 7 "0xowner" "ethereum" (Json.obj []) none "T0") := by
  have h := c6_field_fallbacks 7 "0xo" "ethereum" (Json.obj []) none "T0"
  refine ⟨h.1 rfl, h.2.1 rfl, h.2.2.1 rfl, h.2.2.2.1 rfl, ?_⟩
  have h2 := c6_field_fallbacks 7 "0xowner" "ethereum" (Json.obj []) none "T0"
  exact h2.2.2.2.2.2 trivialLedgerEnv trivialResolveEnv Chain.ethereum "" rfl rfl rfl
    (by intro hx; cases hx)

/-- C4: the entity fetcher always returns a record and never raises to
the batch driver: when a ledger read fails after retries the result is an
error-tagged record carrying `error`, `id`, `chain` (`"unknown"`) and
`syncedAt`; the records of a batch are exactly the per-entry results of
`fetchAgent`, so the record of every entry — and in particular every
successful one — is present in the batch results regardless of the other
outcomes of the other entries. -/
theorem c4_fetcher_total_and_isolated (lenv : LedgerEnv) (renv : ResolveEnv)
    (now : String) (client : Chain) (id : Nat) (mi : Option MintInfo) :
    (∀ e, lenv.tokenURI client id = Except.error e →
      fetchAgent lenv renv now client id mi =
        AgentRecord.err { id := id, errorMsg := strTakeChars e 100, chain := "unknown", syncedAt := now }) ∧
    (∀ e uri, lenv.tokenURI client id = Except.ok uri →
      lenv.ownerOf client id = Except.error e →
      fetchAgent lenv renv now client id mi =
        AgentRecord.err { id := id, errorMsg := strTakeChars e 100, chain := "unknown", syncedAt := now }) ∧
    (∀ batch : List QueueEntry,
      batchResults lenv renv now client batch =
        batch.map (fun q => fetchAgent lenv renv now client q.id (some q.mintInfo))) ∧
    (∀ (batch : List QueueEntry) (q : QueueEntry), q ∈ batch →
      fetchAgent lenv renv now client q.id (some q.mintInfo) ∈
        batchResults lenv renv now client batch) := by
  refine ⟨?_, ?_, fun _ => rfl, ?_⟩
  · intro e he
    unfold fetchAgent fetchAgentInner
    rw [he]
  · intro e uri htu how
    unfold fetchAgent fetchAgentInner
    rw [htu]
    dsimp only
    rw [how]
  · intro batch q hq
    exact List.mem_map_of_mem _ hq

/-- C4 witness: in a batch holding ids 1, 2, 3 where every ledger read
for id 2 fails after retries, id 2 yields an error-tagged record while
ids 1 and 3 still yield successful records in the same batch. -/
theorem c4_fetcher_total_and_isolated_witness :
    fetchAgent failTwoLedgerEnv trivialResolveEnv "T0" Chain.ethereum 2 none =
      AgentRecord.err { id := 2, errorMsg := strTakeChars "boom" 100, chain := "unknown", syncedAt := "T0" } ∧
    (fetchAgent failTwoLedgerEnv trivialResolveEnv "T0" Chain.ethereum 1
        (some qeEth1.mintInfo)).isErr = false ∧
    fetchAgent failTwoLedgerEnv trivialResolveEnv "T0" Chain.ethereum 1
        (some qeEth1.mintInfo) ∈
      batchResults failTwoLedgerEnv trivialResolveEnv "T0" Chain.ethereum
        [qeEth1, { id := 2, mintInfo := ⟨2, "0xb", 20, "0xt2"⟩, chain := .ethereum },
         { id := 3, mintInfo := ⟨3, "0xc", 30, "0xt3"⟩, chain := .ethereum }] := by
  refine ⟨(c4_fetcher_total_and_isolated failTwoLedgerEnv trivialResolveEnv "T0"
    Chain.ethereum 2 none).1 "boom" rfl, rfl, ?_⟩
  exact (c4_fetcher_total_and_isolated failTwoLedgerEnv trivialResolveEnv "T0"
    Chain.ethereum 1 (some qeEth1.mintInfo)).2.2.2 _ qeEth1 (by simp)

theorem lookupFile_map_overwrite (files : Files) (bid : Nat) (b : AgentRecord)
    (aid : Nat) (h : aid ≠ bid) :
    lookupFile (files.map (fun p => if p.1 == bid then (bid, b) else p)) aid =
      lookupFile files aid := by
  induction files with
  | nil => rfl
  | cons p tl ih =>
    by_cases hb : (p.1 == bid) = true
    · have hpb : p.1 = bid := by simpa using hb
      have hna : (bid == aid) = false := beq_eq_false_iff_ne.2 (fun hx => h hx.symm)
      have hpa : (p.1 == aid) = false := by rw [hpb]; exact hna
      simp only [List.map_cons, hb, if_true, lookupFile, List.find?, hna, hpa]
      unfold lookupFile at ih
      exact ih
    · simp only [List.map_cons, hb, Bool.false_eq_true, if_false, lookupFile, List.find?]
      cases hpa : (p.1 == aid) with
      | true => rfl
      | false =>
        unfold lookupFile at ih
        exact ih

theorem lookupFile_setFile_ne (files : Files) (bid : Nat) (b : AgentRecord)
    (aid : Nat) (h : aid ≠ bid) :
    lookupFile (setFile files bid b) aid = lookupFile files aid := by
  unfold setFile
  cases hf : (files.find? (fun p => p.1 == bid)).isSome with
  | true =>
    simp only [hf, if_true]
    exact lookupFile_map_overwrite files bid b aid h
  | false =>
    simp only [hf, Bool.false_eq_true, if_false]
    unfold lookupFile
    rw [assocFind_append]
    cases hk : files.find? (fun p => p.1 == aid) with
    | some w => simp [hk]
    | none =>
      have : (bid == aid) = false := beq_eq_false_iff_ne.2 (fun hx => h hx.symm)
      simp [hk, this]

/-- C9 counterexample: the records of token id 5 on Ethereum and on Base
are distinct entities under the intended (chain, id) key, yet are
persisted under the same file name — writing the Base record after the
Ethereum one overwrites it. -/
theorem c9_counterexample_shared_file :
    agentFileName c9RecEth = agentFileName c9RecBase ∧
    c9RecEth.recChain = "ethereum" ∧
    c9RecBase.recChain = "base" ∧
    lookupFile (setFile (setFile [] c9RecEth.recId c9RecEth) c9RecBase.recId c9RecBase) 5 =
      some c9RecBase :=
  ⟨rfl, rfl, rfl, rfl⟩

/-- C9 (amended): record files are keyed by `id` alone, so two records
with the same id — even on different chains — share one file and the
later write overwrites the earlier one, while records with distinct ids
never share a file: writing one never disturbs the file of the other. -/
theorem c9_files_keyed_by_id (files : Files) (a b : AgentRecord) :
    (a.recId = b.recId → agentFileName a = agentFileName b) ∧
    (lookupFile (setFile files b.recId b) b.recId = some b) ∧
    (a.recId ≠ b.recId →
      lookupFile (setFile files b.recId b) a.recId = lookupFile files a.recId) := by
  refine ⟨?_, ?_, fun h => lookupFile_setFile_ne files b.recId b a.recId h⟩
  · intro h; unfold agentFileName; rw [h]
  · unfold setFile
    cases hf : (files.find? (fun p => p.1 == b.recId)).isSome with
    | true =>
      simp only [hf, if_true]
      rcases Option.isSome_iff_exists.1 hf with ⟨w, hw⟩
      induction files with
      | nil => cases hw
      | cons p tl ih =>
        by_cases hb : (p.1 == b.recId) = true
        · simp [lookupFile, List.find?, hb]
        · simp only [List.find?, hb] at hw
          simp only [List.map_cons, hb, Bool.false_eq_true, if_false, lookupFile, List.find?]
          cases hpb : (p.1 == b.recId) with
          | true => exact absurd hpb (by simp [hb])
          | false =>
            have := ih (by simp [List.find?, hb, hw]) hw
            unfold lookupFile at this
            exact this
    | false =>
      simp only [hf, Bool.false_eq_true, if_false]
      unfold lookupFile
      rw [assocFind_append]
      cases hk : files.find? (fun p => p.1 == b.recId) with
      | some w => rw [hk] at hf; simp at hf
      | none => simp

theorem applyRecord_files (results : List AgentRecord) (st : SyncStats)
    (ex : List Nat) (files : Files) :
    (results.foldl applyRecord (st, ex, files)).2.2 =
      results.foldl (fun f a => setFile f a.recId a) files := by
  induction results generalizing st ex files with
  | nil => rfl
  | cons a tl ih =>
    simp only [List.foldl_cons]
    rw [ih]
    rfl

theorem fetchAgent_ok_chain (lenv : LedgerEnv) (renv : ResolveEnv) (now : String)
    (client : Chain) (id : Nat) (mi : Option MintInfo) (r : OkRecord)
    (h : fetchAgent lenv renv now client id mi = AgentRecord.ok r) :
    r.chain = chainName client := by
  unfold fetchAgent at h
  cases hi : fetchAgentInner lenv renv now client id mi with
  | error e => rw [hi] at h; cases h
  | ok r0 =>
    rw [hi] at h
    cases h
    unfold fetchAgentInner at hi
    cases htu : lenv.tokenURI client id with
    | error e => rw [htu] at hi; cases hi
    | ok uri =>
      rw [htu] at hi
      dsimp only at hi
      cases how : lenv.ownerOf client id with
      | error e => rw [how] at hi; cases hi
      | ok owner =>
        rw [how] at hi
        dsimp only at hi
        cases hp : parseAgentURI renv uri with
        | thrown => rw [hp] at hi; cases hi
        | undefinedRes => rw [hp] at hi; cases hi
        | doc md =>
          rw [hp] at hi
          cases md with
          | null => cases hi
          | bool b => cases hi; rfl
          | num n => cases hi; rfl
          | str s => cases hi; rfl
          | arr xs => cases hi; rfl
          | obj fs => cases hi; rfl

/-- C10: the batch loop selects the ledger client for a whole batch from
the chain of the first batch entry only, and tags every successful
record in the batch with the chain of that client: the records of the batch are
exactly the per-entry fetches through `pickClient` of the first-entry
chain (even when the batch mixes entries of both chains, as at the
boundary between the Ethereum and Base portions of the queue), the loop
writes exactly those records, and every successful record among them
carries the chain name of the first entry rather than the chain of its own entry. -/
theorem c10_batch_client_from_first_entry (lenv : LedgerEnv) (renv : ResolveEnv)
    (now : String) (P : Nat) (s : LoopState) (q : QueueEntry)
    (h : s.rest.head? = some q) :
    (batchResults lenv renv now (pickClient q.chain) (s.rest.take P) =
      (s.rest.take P).map (fun e => fetchAgent lenv renv now (pickClient q.chain) e.id (some e.mintInfo))) ∧
    ((runBatch lenv renv now P s).files =
      (batchResults lenv renv now (pickClient q.chain) (s.rest.take P)).foldl
        (fun f a => setFile f a.recId a) s.files) ∧
    (∀ r ∈ batchResults lenv renv now (pickClient q.chain) (s.rest.take P),
      r.isErr = false → r.recChain = chainName (pickClient q.chain)) := by
  refine ⟨rfl, ?_, ?_⟩
  · cases hr : s.rest with
    | nil => rw [hr] at h; cases h
    | cons q0 tl =>
      rw [hr] at h
      have hq : q0 = q := by
        simp [List.head?] at h
        exact h
      subst hq
      unfold runBatch
      rw [hr]
      dsimp only
      rw [applyRecord_files]
  · intro r hr hok
    rcases List.mem_map.1 hr with ⟨e, _, hre⟩
    cases hfr : fetchAgent lenv renv now (pickClient q.chain) e.id (some e.mintInfo) with
    | err er => rw [hfr] at hre; rw [← hre] at hok; cases hok
    | ok r0 =>
      rw [hfr] at hre
      have : r0.chain = chainName (pickClient q.chain) :=
        fetchAgent_ok_chain lenv renv now (pickClient q.chain) e.id (some e.mintInfo) r0 hfr
      rw [← hre]
      exact this

/-- C10 witness: a mixed batch whose first entry is on Ethereum and whose
second is on Base — both records come back through the Ethereum client
and are tagged `"ethereum"`. -/
theorem c10_batch_client_witness :
    (batchResults trivialLedgerEnv trivialResolveEnv "T0" (pickClient qeEth1.chain)
        ([qeEth1, qeBase2].take 10) =
      ([qeEth1, qeBase2].take 10).map
        (fun e => fetchAgent trivialLedgerEnv trivialResolveEnv "T0"
          (pickClient qeEth1.chain) e.id (some e.mintInfo))) ∧
    (∀ r ∈ batchResults trivialLedgerEnv trivialResolveEnv "T0" (pickClient qeEth1.chain)
        ([qeEth1, qeBase2].take 10),
      r.isErr = false → r.recChain = chainName (pickClient qeEth1.chain)) := by
  have h := c10_batch_client_from_first_entry trivialLedgerEnv trivialResolveEnv "T0" 10
    { rest := [qeEth1, qeBase2], stats := zeroSyncStats, existing := [], files := [],
      inMem := defaultIndex, persisted := none } qeEth1 rfl
  exact ⟨h.1, h.2.2⟩

set_option maxRecDepth 8000 in
/-- C1: the claimed invariant fails in the code — with the previous
Ethereum checkpoint at 20999999 and head 21009999, the log query for the
window from 21000000 to 21004999 fails after retries, yet the run
completes and persists `ethLastBlock = 21009999`, past the failed
window, so the from-block computation of the next run starts at 21010000 and
never re-covers the blocks of the failed window. -/
theorem c1_checkpoint_advances_past_failed_window :
    c1Env.ethLogs 21000000 21004999 = Except.error () ∧
    (syncAgents c1Env c1World).2 = RunResult.done ∧
    (syncAgents c1Env c1World).1.indexFile.map SyncIndex.ethLastBlock = some 21009999 ∧
    ethFromBlockOf false ((syncAgents c1Env c1World).1.indexFile.getD defaultIndex) = 21010000 ∧
    21004999 < 21010000 :=
  ⟨rfl, rfl, rfl, rfl, by decide⟩

/-- C9 witness for the amended statement: records with ids 5 and 6
occupy distinct files (writing one leaves the file of the other untouched),
and rewriting id 5 overwrites its file. -/
theorem c9_files_keyed_by_id_witness :
    agentFileName c9RecEth = agentFileName c9RecBase ∧
    lookupFile (setFile [(5, c9RecEth)] c9RecBase.recId c9RecBase) c9RecBase.recId =
      some c9RecBase ∧
    lookupFile
        (setFile [(5, c9RecEth)]
          (AgentRecord.err { id := 6, errorMsg := "x", chain := "unknown", syncedAt := "T3" }).recId
          (AgentRecord.err { id := 6, errorMsg := "x", chain := "unknown", syncedAt := "T3" })) 5 =
      lookupFile [(5, c9RecEth)] 5 := by
  have h1 := c9_files_keyed_by_id [(5, c9RecEth)] c9RecEth c9RecBase
  have h2 := c9_files_keyed_by_id [(5, c9RecEth)] c9RecEth
    (AgentRecord.err { id := 6, errorMsg := "x", chain := "unknown", syncedAt := "T3" })
  exact ⟨h1.1 rfl, h1.2.1, h2.2.2 (by decide)⟩

theorem runBatch_nil (lenv : LedgerEnv) (renv : ResolveEnv) (now : String) (P : Nat)
    (s : LoopState) (h : s.rest = []) : runBatch lenv renv now P s = s := by
  unfold runBatch
  rw [h]

theorem runBatch_rest (lenv : LedgerEnv) (renv : ResolveEnv) (now : String) (P : Nat)
    (s : LoopState) : (runBatch lenv renv now P s).rest = s.rest.drop P := by
  unfold runBatch
  cases h : s.rest with
  | nil => simp [h]
  | cons q tl => rfl

theorem runBatch_state (lenv : LedgerEnv) (renv : ResolveEnv) (now : String) (P : Nat)
    (s : LoopState) (h : s.rest ≠ []) :
    (runBatch lenv renv now P s).inMem =
      { s.inMem with pendingAgentIds := some (s.rest.drop P) } ∧
    (runBatch lenv renv now P s).persisted =
      some { s.inMem with pendingAgentIds := some (s.rest.drop P) } := by
  unfold runBatch
  cases hr : s.rest with
  | nil => exact absurd hr h
  | cons q tl => exact ⟨rfl, rfl⟩

theorem fetchSteps_add (lenv : LedgerEnv) (renv : ResolveEnv) (now : String) (P : Nat)
    (a b : Nat) (s : LoopState) :
    fetchSteps lenv renv now P (a + b) s =
      fetchSteps lenv renv now P b (fetchSteps lenv renv now P a s) := by
  induction a generalizing s with
  | zero => simp [fetchSteps]
  | succ a ih =>
    have h1 : a + 1 + b = (a + b) + 1 := by omega
    rw [h1]
    show fetchSteps lenv renv now P (a + b) (runBatch lenv renv now P s) = _
    rw [ih]
    rfl

theorem fetchSteps_rest (lenv : LedgerEnv) (renv : ResolveEnv) (now : String) (P : Nat)
    (j : Nat) (s : LoopState) :
    (fetchSteps lenv renv now P j s).rest = s.rest.drop (j * P) := by
  induction j generalizing s with
  | zero => simp [fetchSteps]
  | succ j ih =>
    show (fetchSteps lenv renv now P j (runBatch lenv renv now P s)).rest = _
    rw [ih, runBatch_rest, List.drop_drop]
    congr 1
    rw [Nat.succ_mul]
    omega

theorem fetchSteps_idle (lenv : LedgerEnv) (renv : ResolveEnv) (now : String) (P : Nat)
    (j : Nat) (s : LoopState) (h : s.rest = []) :
    fetchSteps lenv renv now P j s = s := by
  induction j with
  | zero => rfl
  | succ j ih =>
    show fetchSteps lenv renv now P j (runBatch lenv renv now P s) = s
    rw [runBatch_nil lenv renv now P s h]
    exact ih

theorem fetchSteps_pending (lenv : LedgerEnv) (renv : ResolveEnv) (now : String) (P : Nat)
    (j : Nat) (s : LoopState) (hj : 1 ≤ j) (hlt : (j - 1) * P < s.rest.length) :
    (fetchSteps lenv renv now P j s).inMem =
      { s.inMem with pendingAgentIds := some (s.rest.drop (j * P)) } ∧
    (fetchSteps lenv renv now P j s).persisted =
      some { s.inMem with pendingAgentIds := some (s.rest.drop (j * P)) } := by
  induction j generalizing s with
  | zero => omega
  | succ j ih =>
    cases Nat.eq_or_lt_of_le hj with
    | inl h1 =>
      have hj0 : j = 0 := by omega
      subst hj0
      have hne : s.rest ≠ [] := by
        intro hx
        rw [hx] at hlt
        simp at hlt
      have hstep : fetchSteps lenv renv now P (0 + 1) s = runBatch lenv renv now P s := rfl
      have hmul : (0 + 1) * P = P := by omega
      rw [hstep, hmul]
      exact runBatch_state lenv renv now P s hne
    | inr h1 =>
      have hj1 : 1 ≤ j := by omega
      have hne : s.rest ≠ [] := by
        intro hx
        rw [hx] at hlt
        simp at hlt
      have hlen : (j - 1) * P < (runBatch lenv renv now P s).rest.length := by
        rw [runBatch_rest, List.length_drop]
        have hexp : (j + 1 - 1) * P = (j - 1) * P + P := by
          have : j + 1 - 1 = (j - 1) + 1 := by omega
          rw [this, Nat.succ_mul]
        rw [hexp] at hlt
        omega
      have hrec := ih (runBatch lenv renv now P s) hj1 hlen
      have hs := runBatch_state lenv renv now P s hne
      have hmul : P + j * P = (j + 1) * P := by rw [Nat.succ_mul]; omega
      constructor
      · show (fetchSteps lenv renv now P j (runBatch lenv renv now P s)).inMem = _
        rw [hrec.1, hs.1, runBatch_rest, List.drop_drop, hmul]
      · show (fetchSteps lenv renv now P j (runBatch lenv renv now P s)).persisted = _
        rw [hrec.2, hs.1, runBatch_rest, List.drop_drop, hmul]

theorem runBatch_files_rest_congr (lenv : LedgerEnv) (renv : ResolveEnv) (now : String)
    (P : Nat) (s t : LoopState) (hr : s.rest = t.rest) (hf : s.files = t.files) :
    (runBatch lenv renv now P s).rest = (runBatch lenv renv now P t).rest ∧
    (runBatch lenv renv now P s).files = (runBatch lenv renv now P t).files := by
  constructor
  · rw [runBatch_rest, runBatch_rest, hr]
  · unfold runBatch
    cases hs : s.rest with
    | nil =>
      rw [hs] at hr
      rw [← hr]
      exact hf
    | cons q tl =>
      rw [hs] at hr
      rw [← hr]
      dsimp only
      rw [applyRecord_files, applyRecord_files, hf]

theorem fetchSteps_files_rest_congr (lenv : LedgerEnv) (renv : ResolveEnv) (now : String)
    (P : Nat) (j : Nat) (s t : LoopState) (hr : s.rest = t.rest) (hf : s.files = t.files) :
    (fetchSteps lenv renv now P j s).rest = (fetchSteps lenv renv now P j t).rest ∧
    (fetchSteps lenv renv now P j s).files = (fetchSteps lenv renv now P j t).files := by
  induction j generalizing s t with
  | zero => exact ⟨hr, hf⟩
  | succ j ih =>
    have h1 := runBatch_files_rest_congr lenv renv now P s t hr hf
    exact ih (runBatch lenv renv now P s) (runBatch lenv renv now P t) h1.1 h1.2

theorem numBatches_zero (P : Nat) (hP : 1 ≤ P) : numBatches 0 P = 0 := by
  unfold numBatches
  exact Nat.div_eq_of_lt (by omega)

theorem numBatches_succ (n P : Nat) (hn : 1 ≤ n) (hP : 1 ≤ P) :
    numBatches n P = numBatches (n - P) P + 1 := by
  unfold numBatches
  have h1 : n + P - 1 = (n - 1) + P := by omega
  rw [h1, Nat.add_div_right _ (by omega : 0 < P)]
  by_cases hnp : P ≤ n
  · have h2 : n - P + P - 1 = n - 1 := by omega
    rw [h2]
  · have h0 : n - P = 0 := by omega
    rw [h0]
    have h3 : (0 + P - 1) / P = 0 := Nat.div_eq_of_lt (by omega)
    have h4 : (n - 1) / P = 0 := Nat.div_eq_of_lt (by omega)
    rw [h3, h4]

theorem numBatches_mul_lt (n P t : Nat) (hP : 1 ≤ P) (ht : t < numBatches n P) :
    t * P < n := by
  unfold numBatches at ht
  have h1 : t + 1 ≤ (n + P - 1) / P := ht
  have h2 : (t + 1) * P ≤ ((n + P - 1) / P) * P :=
    Nat.mul_le_mul_right P h1
  have h3 : ((n + P - 1) / P) * P ≤ n + P - 1 := Nat.div_mul_le_self _ _
  have h4 : (t + 1) * P = t * P + P := Nat.succ_mul t P
  omega

theorem firstTrip_spec (elapsed : Nat → Nat) (deadline : Nat) :
    ∀ (b k t : Nat), firstTrip elapsed deadline k b = some t →
      k ≤ t ∧ t < k + b ∧ deadline < elapsed t ∧
      ∀ i, k ≤ i → i < t → elapsed i ≤ deadline := by
  intro b
  induction b with
  | zero => intro k t h; cases h
  | succ b ih =>
    intro k t h
    unfold firstTrip at h
    by_cases hk : deadline < elapsed k
    · rw [if_pos hk] at h
      cases h
      exact ⟨Nat.le_refl _, by omega, hk, fun i h1 h2 => by omega⟩
    · rw [if_neg hk] at h
      have := ih (k + 1) t h
      refine ⟨by omega, by omega, this.2.2.1, ?_⟩
      intro i h1 h2
      by_cases hik : i = k
      · subst hik; omega
      · exact this.2.2.2 i (by omega) h2

theorem fetchLoopGo_spec (lenv : LedgerEnv) (renv : ResolveEnv) (now : String)
    (P deadline : Nat) (elapsed : Nat → Nat) (hP : 1 ≤ P) :
    ∀ (fuel k : Nat) (s : LoopState), s.rest.length ≤ fuel →
      (firstTrip elapsed deadline k (numBatches s.rest.length P) = none →
        fetchLoopGo lenv renv now P deadline elapsed fuel k s =
          (fetchSteps lenv renv now P (numBatches s.rest.length P) s, false)) ∧
      (∀ t, firstTrip elapsed deadline k (numBatches s.rest.length P) = some t →
        fetchLoopGo lenv renv now P deadline elapsed fuel k s =
          (let s2 := fetchSteps lenv renv now P (t - k) s
           let idx2 := { s2.inMem with pendingAgentIds := some s2.rest }
           ({ s2 with inMem := idx2, persisted := some idx2 }, true))) := by
  intro fuel
  induction fuel with
  | zero =>
    intro k s hlen
    have hnil : s.rest = [] := List.length_eq_zero.1 (by omega)
    have hb : numBatches s.rest.length P = 0 := by
      rw [hnil]
      exact numBatches_zero P hP
    rw [hb]
    constructor
    · intro _
      show (s, false) = (fetchSteps lenv renv now P 0 s, false)
      rfl
    · intro t ht
      cases ht
  | succ fuel ih =>
    intro k s hlen
    cases hr : s.rest with
    | nil =>
      simp only [List.length_nil, numBatches_zero P hP]
      constructor
      · intro _
        show fetchLoopGo lenv renv now P deadline elapsed (fuel + 1) k s = (s, false)
        unfold fetchLoopGo
        rw [hr]
      · intro t ht
        cases ht
    | cons q tl =>
      rw [← hr]
      have hn1 : 1 ≤ s.rest.length := by rw [hr]; simp
      have hb : numBatches s.rest.length P =
          numBatches (s.rest.length - P) P + 1 := numBatches_succ _ P hn1 hP
      have hlen2 : (runBatch lenv renv now P s).rest.length ≤ fuel := by
        rw [runBatch_rest, List.length_drop]
        omega
      have hrest2 : (runBatch lenv renv now P s).rest.length = s.rest.length - P := by
        rw [runBatch_rest, List.length_drop]
      have hih := ih (k + 1) (runBatch lenv renv now P s) hlen2
      rw [hrest2] at hih
      by_cases htrip : deadline < elapsed k
      · have hft : firstTrip elapsed deadline k (numBatches s.rest.length P) = some k := by
          rw [hb]
          unfold firstTrip
          rw [if_pos htrip]
        constructor
        · intro hnone
          rw [hft] at hnone
          cases hnone
        · intro t ht
          rw [hft] at ht
          cases ht
          have hstep : fetchLoopGo lenv renv now P deadline elapsed (fuel + 1) k s =
              (let idx2 := { s.inMem with pendingAgentIds := some s.rest }
               ({ s with inMem := idx2, persisted := some idx2 }, true)) := by
            unfold fetchLoopGo
            rw [hr]
            dsimp only
            rw [if_pos htrip]
          rw [hstep]
          have hzero : k - k = 0 := by omega
          rw [hzero]
          rfl
      · have hft : firstTrip elapsed deadline k (numBatches s.rest.length P) =
            firstTrip elapsed deadline (k + 1) (numBatches (s.rest.length - P) P) := by
          rw [hb]
          show (if deadline < elapsed k then some k
                else firstTrip elapsed deadline (k + 1) (numBatches (s.rest.length - P) P)) = _
          rw [if_neg htrip]
        constructor
        · intro hnone
          rw [hft] at hnone
          unfold fetchLoopGo
          rw [hr]
          dsimp only
          rw [if_neg htrip]
          rw [← hr]
          rw [hih.1 hnone, hb]
          rfl
        · intro t ht
          rw [hft] at ht
          have hkt : k + 1 ≤ t := (firstTrip_spec elapsed deadline _ _ _ ht).1
          unfold fetchLoopGo
          rw [hr]
          dsimp only
          rw [if_neg htrip]
          rw [hih.2 t ht]
          have hsub : t - k = (t - (k + 1)) + 1 := by omega
          rw [hsub]
          rfl

/-- C2: resumability of the fetch phase.  (a) When scanning produced a
non-empty queue, the plan phase durably writes the queue together with
both head checkpoints before any fetching begins.  (b) After batch `j`
the persisted index carries exactly the unprocessed tail of the queue.
(c) A later run resumes — taking the persisted pending queue as its
entire fetch work and skipping scanning — iff a non-empty
`pendingAgentIds` exists and force-refresh is off, in which case the plan
phase returns that queue untouched without consulting the ledger.
(d) A run interrupted after batch `j` followed by a resumed run over the
persisted tail (restarting from the on-disk files, with any fresh stats
accumulator and index) produces exactly the record files of an
uninterrupted run. -/
theorem c2_fetch_resumability (env : SyncEnv) (idx0 : SyncIndex) (existing0 : List Nat)
    (lenv : LedgerEnv) (renv : ResolveEnv) (now : String) (P : Nat)
    (s0 : LoopState) (j : Nat) (hP : 1 ≤ P) :
    (resumePending env.forceRefresh idx0 = none →
      (planPhase env idx0 existing0).ids ≠ [] →
      (planPhase env idx0 existing0).written =
        some { idx0 with pendingAgentIds := some (planPhase env idx0 existing0).ids, ethLastBlock := env.ethHead, baseLastBlock := env.baseHead }) ∧
    (1 ≤ j → (j - 1) * P < s0.rest.length →
      (fetchSteps lenv renv now P j s0).persisted =
        some { s0.inMem with pendingAgentIds := some (s0.rest.drop (j * P)) }) ∧
    (∀ l, resumePending env.forceRefresh idx0 = some l ↔
      (env.forceRefresh = false ∧ idx0.pendingAgentIds = some l ∧ l ≠ [])) ∧
    (∀ l, resumePending env.forceRefresh idx0 = some l →
      planPhase env idx0 existing0 =
        { inMem := idx0, written := none, ids := l,
          ethBlock := idx0.ethLastBlock, baseBlock := idx0.baseLastBlock }) ∧
    (∀ (stats' : SyncStats) (existing' : List Nat) (inMem' : SyncIndex)
        (persisted' : Option SyncIndex),
      (fetchSteps lenv renv now P
          ((fetchSteps lenv renv now P j s0).rest.length)
          { rest := (fetchSteps lenv renv now P j s0).rest
            stats := stats'
            existing := existing'
            files := (fetchSteps lenv renv now P j s0).files
            inMem := inMem'
            persisted := persisted' }).files =
        (fetchSteps lenv renv now P s0.rest.length s0).files) := by
  refine ⟨?_, ?_, ?_, ?_, ?_⟩
  · intro hres hne
    unfold planPhase
    unfold planPhase at hne
    rw [hres] at hne ⊢
    dsimp only at hne ⊢
    cases hq : (buildQueue
        (getMintEvents env.ethLogs (ethFromBlockOf env.forceRefresh idx0) env.ethHead Chain.ethereum)
        (getMintEvents env.baseLogs (baseFromBlockOf env.forceRefresh idx0) env.baseHead Chain.base)
        env.forceRefresh existing0).isEmpty with
    | true =>
      rw [hq] at hne
      rw [if_pos rfl] at hne
      exact absurd (List.isEmpty_iff.1 hq) hne
    | false =>
      rw [if_neg (by simp)]
  · intro hj hlt
    exact (fetchSteps_pending lenv renv now P j s0 hj hlt).2
  · intro l
    unfold resumePending
    cases hf : env.forceRefresh with
    | true => simp
    | false =>
      simp only [if_false, Bool.false_eq_true]
      cases hp : idx0.pendingAgentIds with
      | none => simp
      | some l0 =>
        cases he : l0.isEmpty with
        | true =>
          have : l0 = [] := List.isEmpty_iff.1 he
          subst this
          simp
        | false =>
          have hne : l0 ≠ [] := by
            intro hx
            subst hx
            simp at he
          constructor
          · intro hx
            dsimp only at hx
            rw [he] at hx
            rw [if_neg (by simp)] at hx
            cases hx
            exact ⟨by trivial, rfl, hne⟩
          · intro ⟨_, hx, _⟩
            cases hx
            dsimp only
            rw [he]
            rw [if_neg (by simp)]
  · intro l hres
    unfold planPhase
    rw [hres]
  · intro stats' existing' inMem' persisted'
    have hcongr := fetchSteps_files_rest_congr lenv renv now P
      ((fetchSteps lenv renv now P j s0).rest.length)
      { rest := (fetchSteps lenv renv now P j s0).rest
        stats := stats'
        existing := existing'
        files := (fetchSteps lenv renv now P j s0).files
        inMem := inMem'
        persisted := persisted' }
      (fetchSteps lenv renv now P j s0) rfl rfl
    rw [hcongr.2]
    let M := (fetchSteps lenv renv now P j s0).rest.length
    have hadd : fetchSteps lenv renv now P M (fetchSteps lenv renv now P j s0) =
        fetchSteps lenv renv now P (j + M) s0 :=
      (fetchSteps_add lenv renv now P j M s0).symm
    rw [hadd]
    have hn := s0.rest.length
    have hdrain1 : (fetchSteps lenv renv now P (j + M) s0).rest = [] := by
      rw [fetchSteps_rest]
      apply List.drop_eq_nil_of_le
      have hM : M = s0.rest.length - j * P := by
        show (fetchSteps lenv renv now P j s0).rest.length = _
        rw [fetchSteps_rest, List.length_drop]
      have hMP : M ≤ M * P := Nat.le_mul_of_pos_right M (by omega)
      have hexp : (j + M) * P = j * P + M * P := Nat.add_mul j M P
      omega
    have hdrain2 : (fetchSteps lenv renv now P s0.rest.length s0).rest = [] := by
      rw [fetchSteps_rest]
      apply List.drop_eq_nil_of_le
      have : s0.rest.length ≤ s0.rest.length * P := Nat.le_mul_of_pos_right _ (by omega)
      omega
    have hs1 : fetchSteps lenv renv now P ((j + M) + s0.rest.length) s0 =
        fetchSteps lenv renv now P (j + M) s0 := by
      rw [fetchSteps_add]
      exact fetchSteps_idle lenv renv now P _ _ hdrain1
    have hs2 : fetchSteps lenv renv now P (s0.rest.length + (j + M)) s0 =
        fetchSteps lenv renv now P s0.rest.length s0 := by
      rw [fetchSteps_add]
      exact fetchSteps_idle lenv renv now P _ _ hdrain2
    have hcomm : (j + M) + s0.rest.length = s0.rest.length + (j + M) := Nat.add_comm _ _
    rw [← hs1, hcomm, hs2]

/-- C2 witness: with batch size 1 and the concrete queue of tokens 1 and
2, the index persisted after batch 1 carries exactly the tail (token 2),
and a non-empty persisted pending queue with force-refresh off is taken
for resumption. -/
theorem c2_fetch_resumability_witness :
    (fetchSteps trivialLedgerEnv trivialResolveEnv "T0" 1 1
        { rest := [qeEth1, qeBase2], stats := zeroSyncStats, existing := [], files := [],
          inMem := defaultIndex, persisted := none }).persisted =
      some { defaultIndex with pendingAgentIds := some [qeBase2] } ∧
    resumePending false { defaultIndex with pendingAgentIds := some [qeEth1] } = some [qeEth1] := by
  have h := c2_fetch_resumability c1Env { defaultIndex with pendingAgentIds := some [qeEth1] } []
    trivialLedgerEnv trivialResolveEnv "T0" 1
    { rest := [qeEth1, qeBase2], stats := zeroSyncStats, existing := [], files := [],
      inMem := defaultIndex, persisted := none } 1 (by decide)
  constructor
  · exact h.2.1 (by decide) (by decide)
  · exact (h.2.2.1 [qeEth1]).2 ⟨rfl, rfl, by simp⟩

/-- C3: the wall-clock deadline is checked only at batch boundaries —
when the first tripping check is the one before batch `t`, every check
before it passed (so batches 0 to t-1 ran to completion, and the state is
exactly `t` whole batches applied; no batch is interrupted mid-flight),
and the run returns the checkpoint-exit outcome: the persisted index is
the loop index with `pendingAgentIds` holding the remaining tail, leaving
`lastSync`, `stats` and every other field untouched (finalize never
runs), and the result is the non-error `checkpointExit`. -/
theorem c3_deadline_checked_between_batches (env : SyncEnv) (w : World) (t : Nat)
    (hP : 1 ≤ env.parallelFetches)
    (ht : firstTrip env.elapsed env.deadline 0
        (numBatches (planPhase env (loadIndex w) (w.files.map Prod.fst)).ids.length
          env.parallelFetches) = some t) :
    (∀ i, i < t → env.elapsed i ≤ env.deadline) ∧
    env.deadline < env.elapsed t ∧
    syncAgents env w =
      ({ files := (fetchSteps env.lenv env.renv env.now env.parallelFetches t (loopInit env w)).files,
         indexFile := some { (planPhase env (loadIndex w) (w.files.map Prod.fst)).inMem with pendingAgentIds := some ((planPhase env (loadIndex w) (w.files.map Prod.fst)).ids.drop (t * env.parallelFetches)) } },
       RunResult.checkpointExit) := by
  have hspec := firstTrip_spec env.elapsed env.deadline _ 0 t ht
  refine ⟨fun i hi => hspec.2.2.2 i (by omega) hi, hspec.2.2.1, ?_⟩
  have hrs : (loopInit env w).rest = (planPhase env (loadIndex w) (w.files.map Prod.fst)).ids := rfl
  have hloop := (fetchLoopGo_spec env.lenv env.renv env.now env.parallelFetches env.deadline
    env.elapsed hP ((planPhase env (loadIndex w) (w.files.map Prod.fst)).ids.length) 0
    (loopInit env w) (by rw [hrs])).2 t (by rw [hrs]; exact ht)
  unfold syncAgents
  dsimp only
  rw [hloop]
  dsimp only
  have hrest2 : (fetchSteps env.lenv env.renv env.now env.parallelFetches (t - 0)
      (loopInit env w)).rest =
      (planPhase env (loadIndex w) (w.files.map Prod.fst)).ids.drop (t * env.parallelFetches) := by
    rw [fetchSteps_rest, hrs, Nat.sub_zero]
  cases Nat.eq_zero_or_pos t with
  | inl ht0 =>
    subst ht0
    rw [hrest2]
    have hids : (planPhase env (loadIndex w) (w.files.map Prod.fst)).ids.drop
        (0 * env.parallelFetches) =
        (planPhase env (loadIndex w) (w.files.map Prod.fst)).ids := by
      rw [Nat.zero_mul, List.drop_zero]
    rfl
  | inr htpos =>
    have htB : t < numBatches (planPhase env (loadIndex w) (w.files.map Prod.fst)).ids.length
        env.parallelFetches := by
      have := hspec.2.1
      omega
    have hmul : t * env.parallelFetches <
        (planPhase env (loadIndex w) (w.files.map Prod.fst)).ids.length :=
      numBatches_mul_lt _ _ _ hP htB
    have hsub0 : t - 0 = t := Nat.sub_zero t
    have hlt : (t - 1) * env.parallelFetches < (loopInit env w).rest.length := by
      rw [hrs]
      have hle : (t - 1) * env.parallelFetches ≤ t * env.parallelFetches :=
        Nat.mul_le_mul_right _ (by omega)
      omega
    have hpend := fetchSteps_pending env.lenv env.renv env.now env.parallelFetches t
      (loopInit env w) (by omega) hlt
    rw [hsub0] at hrest2 ⊢
    rw [hrest2, hpend.1]
    rfl

/-- C3 witness: in the concrete deadline-trip scenario the check before
batch 0 passes, the check before batch 1 trips, and the run ends in the
checkpoint exit with token 2 persisted as the pending tail. -/
theorem c3_deadline_checked_between_batches_witness :
    c3Env.elapsed 0 ≤ c3Env.deadline ∧
    c3Env.deadline < c3Env.elapsed 1 ∧
    (syncAgents c3Env c3World).2 = RunResult.checkpointExit := by
  have h := c3_deadline_checked_between_batches c3Env c3World 1 (by decide) (by rfl)
  exact ⟨h.1 0 (by decide), h.2.1, by rw [h.2.2]⟩

theorem chainStats_ext (a b : ChainStats) (h1 : a.active = b.active)
    (h2 : a.inactive = b.inactive) (h3 : a.errors = b.errors) (h4 : a.x402 = b.x402)
    (h5 : a.withServices = b.withServices) : a = b := by
  cases a; cases b
  dsimp at h1 h2 h3 h4 h5
  subst h1; subst h2; subst h3; subst h4; subst h5
  rfl

theorem fetchAgent_err_chain (lenv : LedgerEnv) (renv : ResolveEnv) (now : String)
    (client : Chain) (id : Nat) (mi : Option MintInfo) (e : ErrRecord)
    (h : fetchAgent lenv renv now client id mi = AgentRecord.err e) :
    e.chain = "unknown" := by
  unfold fetchAgent at h
  cases hi : fetchAgentInner lenv renv now client id mi with
  | ok r => rw [hi] at h; cases h
  | error msg =>
    rw [hi] at h
    cases h
    rfl

theorem fetchAgent_recordWF (lenv : LedgerEnv) (renv : ResolveEnv) (now : String)
    (client : Chain) (id : Nat) (mi : Option MintInfo) :
    recordWF (fetchAgent lenv renv now client id mi) := by
  cases hf : fetchAgent lenv renv now client id mi with
  | ok r =>
    have := fetchAgent_ok_chain lenv renv now client id mi r hf
    show r.chain = "ethereum" ∨ r.chain = "base"
    cases client with
    | ethereum => exact Or.inl this
    | base => exact Or.inr this
  | err e =>
    exact fetchAgent_err_chain lenv renv now client id mi e hf

theorem keys_map_overwrite (files : Files) (id : Nat) (a : AgentRecord) :
    (files.map (fun p => if p.1 == id then (id, a) else p)).map Prod.fst =
      files.map Prod.fst := by
  induction files with
  | nil => rfl
  | cons p tl ih =>
    by_cases hp : (p.1 == id) = true
    · have hpe : p.1 = id := by simpa using hp
      simp only [List.map_cons, hp, if_true, ih]
      rw [hpe]
    · simp only [List.map_cons, hp, Bool.false_eq_true, if_false, ih]

theorem keys_setFile (files : Files) (id : Nat) (a : AgentRecord) :
    (setFile files id a).map Prod.fst =
      if (files.find? (fun p => p.1 == id)).isSome then files.map Prod.fst
      else files.map Prod.fst ++ [id] := by
  unfold setFile
  cases hf : (files.find? (fun p => p.1 == id)).isSome with
  | true =>
    rw [if_pos rfl, if_pos rfl]
    exact keys_map_overwrite files id a
  | false =>
    rw [if_neg (by simp), if_neg (by simp)]
    simp

theorem setFile_wf (files : Files) (a : AgentRecord) (hwf : wfFiles files)
    (hra : recordWF a) : wfFiles (setFile files a.recId a) := by
  constructor
  · rw [keys_setFile]
    cases hf : (files.find? (fun p => p.1 == a.recId)).isSome with
    | true => rw [if_pos rfl]; exact hwf.1
    | false =>
      rw [if_neg (by simp)]
      rw [List.nodup_append]
      refine ⟨hwf.1, List.nodup_singleton _, ?_⟩
      intro x hx hy
      simp only [List.mem_singleton] at hy
      subst hy
      have hnone : files.find? (fun p => p.1 == a.recId) = none := by
        cases hn : files.find? (fun p => p.1 == a.recId) with
        | none => rfl
        | some w => rw [hn] at hf; simp at hf
      exact assocFind_none_not_mem files a.recId hnone hx
  · intro p hp
    unfold setFile at hp
    cases hf : (files.find? (fun q => q.1 == a.recId)).isSome with
    | true =>
      rw [if_pos (by rw [hf])] at hp
      rcases List.mem_map.1 hp with ⟨q, hq, hqe⟩
      by_cases hqa : (q.1 == a.recId) = true
      · rw [if_pos hqa] at hqe
        subst hqe
        exact ⟨rfl, hra⟩
      · rw [if_neg hqa] at hqe
        subst hqe
        exact hwf.2 q hq
    | false =>
      rw [if_neg (by rw [hf]; simp)] at hp
      rcases List.mem_append.1 hp with hq | hq
      · exact hwf.2 p hq
      · simp only [List.mem_singleton] at hq
        subst hq
        exact ⟨rfl, hra⟩

theorem foldl_setFile_wf (results : List AgentRecord) (f : Files)
    (hall : ∀ a ∈ results, recordWF a) (hwf : wfFiles f) :
    wfFiles (results.foldl (fun acc a => setFile acc a.recId a) f) := by
  induction results generalizing f with
  | nil => exact hwf
  | cons a tl ih =>
    rw [List.foldl_cons]
    exact ih (setFile f a.recId a)
      (fun b hb => hall b (List.mem_cons_of_mem a hb))
      (setFile_wf f a hwf (hall a (List.mem_cons_self a tl)))

theorem runBatch_wf (lenv : LedgerEnv) (renv : ResolveEnv) (now : String) (P : Nat)
    (s : LoopState) (hwf : wfFiles s.files) : wfFiles ((runBatch lenv renv now P s).files) := by
  unfold runBatch
  cases hr : s.rest with
  | nil => exact hwf
  | cons q tl =>
    dsimp only
    rw [applyRecord_files]
    apply foldl_setFile_wf
    · intro a ha
      rcases List.mem_map.1 ha with ⟨e, _, he⟩
      rw [← he]
      exact fetchAgent_recordWF lenv renv now (pickClient q.chain) e.id (some e.mintInfo)
    · exact hwf

theorem fetchLoopGo_wf (lenv : LedgerEnv) (renv : ResolveEnv) (now : String)
    (P deadline : Nat) (elapsed : Nat → Nat) :
    ∀ (fuel k : Nat) (s : LoopState), wfFiles s.files →
      wfFiles ((fetchLoopGo lenv renv now P deadline elapsed fuel k s).1.files) := by
  intro fuel
  induction fuel with
  | zero => intro k s h; exact h
  | succ fuel ih =>
    intro k s h
    unfold fetchLoopGo
    cases hr : s.rest with
    | nil => exact h
    | cons q tl =>
      dsimp only
      by_cases htrip : deadline < elapsed k
      · rw [if_pos htrip]
        exact h
      · rw [if_neg htrip]
        exact ih (k + 1) (runBatch lenv renv now P s) (runBatch_wf lenv renv now P s h)

theorem mintScanLoop_no_mints (logsOf : Nat → Nat → Except Unit (List LogEvent))
    (chunk : Nat) (hnil : ∀ a b, logsOf a b = Except.ok []) :
    ∀ (fuel cur endB : Nat) (acc : List (Nat × MintInfo)),
      mintScanLoop logsOf chunk fuel cur endB acc = acc := by
  intro fuel
  induction fuel with
  | zero => intro cur endB acc; rfl
  | succ fuel ih =>
    intro cur endB acc
    unfold mintScanLoop
    by_cases hc : cur ≤ endB
    · rw [if_pos hc]
      dsimp only
      rw [hnil]
      exact ih _ _ _
    · rw [if_neg hc]

theorem syncStats_ext (a b : SyncStats) (h1 : a.ethereum = b.ethereum)
    (h2 : a.base = b.base) : a = b := by
  cases a; cases b
  dsimp at h1 h2
  subst h1; subst h2
  rfl

theorem lookupFile_cons_self (k : Nat) (a : AgentRecord) (tl : Files) :
    lookupFile ((k, a) :: tl) k = some a := by
  simp [lookupFile, List.find?]

theorem lookupFile_cons_ne (k x : Nat) (a : AgentRecord) (tl : Files) (h : x ≠ k) :
    lookupFile ((k, a) :: tl) x = lookupFile tl x := by
  have hb : (k == x) = false := beq_eq_false_iff_ne.2 (fun he => h he.symm)
  simp [lookupFile, List.find?, hb]

theorem tallyExisting_cons_key (files : Files) (st : SyncStats) (x : Nat) (ex : List Nat) :
    tallyExisting files [] st (x :: ex) =
      tallyExisting files []
        (match lookupFile files x with
         | none => st
         | some (.err _) => st
         | some (.ok r) =>
           if r.chain = "ethereum" then { st with ethereum := bumpStats st.ethereum r }
           else { st with base := bumpStats st.base r }) ex := rfl

theorem tallyExisting_congr (f1 f2 : Files) (st : SyncStats) (ex : List Nat)
    (h : ∀ x ∈ ex, lookupFile f1 x = lookupFile f2 x) :
    tallyExisting f1 [] st ex = tallyExisting f2 [] st ex := by
  induction ex generalizing st with
  | nil => rfl
  | cons x ex ih =>
    rw [tallyExisting_cons_key, tallyExisting_cons_key]
    rw [h x (List.mem_cons_self x ex)]
    exact ih _ (fun y hy => h y (List.mem_cons_of_mem _ hy))

theorem countRecords_cons (k : Nat) (a : AgentRecord) (tl : Files) (p : AgentRecord → Bool) :
    countRecords ((k, a) :: tl) p = (if p a then 1 else 0) + countRecords tl p := by
  unfold countRecords
  rw [List.filter_cons]
  by_cases hp : p a = true
  · rw [if_pos hp, if_pos hp, List.length_cons]
    omega
  · have hp2 : p a = false := by
      cases hpa : p a with
      | true => exact absurd hpa hp
      | false => rfl
    rw [if_neg (by rw [hp2]; simp), if_neg hp]
    omega

theorem recomputeChain_cons_skip (k : Nat) (a : AgentRecord) (tl : Files) (c : String)
    (h : (a.recChain == c) = false) :
    recomputeChain ((k, a) :: tl) c = recomputeChain tl c := by
  unfold recomputeChain
  apply chainStats_ext <;> dsimp only <;> rw [countRecords_cons] <;>
    rw [if_neg (by rw [h]; simp)] <;> omega

theorem tally_recompute :
    ∀ (files : Files) (st : SyncStats), wfFiles files →
      tallyExisting files [] st (files.map Prod.fst) =
        { ethereum := chainAdd st.ethereum (recomputeChain files "ethereum"),
          base := chainAdd st.base (recomputeChain files "base") } := by
  intro files
  induction files with
  | nil =>
    intro st _
    apply syncStats_ext <;> apply chainStats_ext <;>
      simp [tallyExisting, recomputeChain, countRecords, chainAdd]
  | cons p tl ih =>
    intro st hwf
    obtain ⟨k, a⟩ := p
    have hmem : (k, a) ∈ (k, a) :: tl := List.mem_cons_self _ _
    have hwfa : recordWF a := (hwf.2 _ hmem).2
    have hnodk : k ∉ tl.map Prod.fst := by
      have h1 := hwf.1
      simp only [List.map_cons] at h1
      exact (List.nodup_cons.1 h1).1
    have hwftl : wfFiles tl := by
      constructor
      · have h1 := hwf.1
        simp only [List.map_cons] at h1
        exact (List.nodup_cons.1 h1).2
      · intro q hq
        exact hwf.2 q (List.mem_cons_of_mem _ hq)
    rw [List.map_cons, tallyExisting_cons_key, lookupFile_cons_self]
    rw [tallyExisting_congr ((k, a) :: tl) tl _ (tl.map Prod.fst)
      (fun x hx => lookupFile_cons_ne k x a tl (fun he => hnodk (he ▸ hx)))]
    cases a with
    | err e =>
      have hc : e.chain = "unknown" := hwfa
      have hskipE : ((AgentRecord.err e).recChain == "ethereum") = false := by
        show (e.chain == "ethereum") = false
        rw [hc]
        decide
      have hskipB : ((AgentRecord.err e).recChain == "base") = false := by
        show (e.chain == "base") = false
        rw [hc]
        decide
      rw [recomputeChain_cons_skip k _ tl "ethereum" hskipE,
          recomputeChain_cons_skip k _ tl "base" hskipB]
      exact ih st hwftl
    | ok r =>
      cases hwfa with
      | inl heth =>
        have hskipB : ((AgentRecord.ok r).recChain == "base") = false := by
          show (r.chain == "base") = false
          rw [heth]
          decide
        have hbe : ((AgentRecord.ok r).recChain == "ethereum") = true := by
          show (r.chain == "ethereum") = true
          rw [heth]
          decide
        rw [recomputeChain_cons_skip k _ tl "base" hskipB]
        dsimp only
        rw [if_pos heth]
        rw [ih { st with ethereum := bumpStats st.ethereum r } hwftl]
        apply syncStats_ext
        · dsimp only
          apply chainStats_ext <;> dsimp only [chainAdd, bumpStats, recomputeChain] <;>
            rw [countRecords_cons] <;>
            simp only [hbe, Bool.true_and, recOkActive, recOkInactive, recOkX402,
              recOkServices, AgentRecord.isErr] <;>
            first
              | (cases ht : jsTruthy r.active <;> simp [ht] <;> omega)
              | (cases ht : jsTruthy r.x402Support <;> simp [ht] <;> omega)
              | (cases ht : jsLenPos r.services <;> simp [ht] <;> omega)
              | omega
        · dsimp only
      | inr hbase =>
        have hskipE : ((AgentRecord.ok r).recChain == "ethereum") = false := by
          show (r.chain == "ethereum") = false
          rw [hbase]
          decide
        have hbb : ((AgentRecord.ok r).recChain == "base") = true := by
          show (r.chain == "base") = true
          rw [hbase]
          decide
        have hne : ¬(r.chain = "ethereum") := by
          rw [hbase]
          decide
        rw [recomputeChain_cons_skip k _ tl "ethereum" hskipE]
        dsimp only
        rw [if_neg hne]
        rw [ih { st with base := bumpStats st.base r } hwftl]
        apply syncStats_ext
        · dsimp only
        · dsimp only
          apply chainStats_ext <;> dsimp only [chainAdd, bumpStats, recomputeChain] <;>
            rw [countRecords_cons] <;>
            simp only [hbb, Bool.true_and, recOkActive, recOkInactive, recOkX402,
              recOkServices, AgentRecord.isErr] <;>
            first
              | (cases ht : jsTruthy r.active <;> simp [ht] <;> omega)
              | (cases ht : jsTruthy r.x402Support <;> simp [ht] <;> omega)
              | (cases ht : jsLenPos r.services <;> simp [ht] <;> omega)
              | omega

theorem chainAdd_zero_left (x : ChainStats) : chainAdd zeroChainStats x = x := by
  apply chainStats_ext <;> simp [chainAdd, zeroChainStats]

theorem fetchLoopGo_zero (lenv : LedgerEnv) (renv : ResolveEnv) (now : String)
    (P deadline : Nat) (elapsed : Nat → Nat) (k : Nat) (s : LoopState) :
    fetchLoopGo lenv renv now P deadline elapsed 0 k s = (s, false) := rfl

theorem syncAgents_done_shape (env : SyncEnv) (w : World) (hwf : wfFiles w.files)
    (hdone : (syncAgents env w).2 = RunResult.done) :
    wfFiles (syncAgents env w).1.files ∧
    ∃ idx1, (syncAgents env w).1.indexFile = some idx1 ∧ idx1.pendingAgentIds = none := by
  unfold syncAgents at hdone ⊢
  dsimp only at hdone ⊢
  rcases hEq : fetchLoopGo env.lenv env.renv env.now env.parallelFetches env.deadline
      env.elapsed (planPhase env (loadIndex w) (w.files.map Prod.fst)).ids.length 0
      (loopInit env w) with ⟨s1, flag⟩
  rw [hEq] at hdone
  cases flag with
  | true =>
    simp at hdone
  | false =>
    rw [if_neg (by simp)]
    constructor
    · have hw := fetchLoopGo_wf env.lenv env.renv env.now env.parallelFetches env.deadline
        env.elapsed ((planPhase env (loadIndex w) (w.files.map Prod.fst)).ids.length) 0
        (loopInit env w) hwf
      rw [hEq] at hw
      exact hw
    · exact ⟨_, rfl, rfl⟩

theorem syncAgents_quiet_run (env : SyncEnv) (w : World) (idx : SyncIndex)
    (hidx : w.indexFile = some idx)
    (hpend : idx.pendingAgentIds = none)
    (hforce : env.forceRefresh = false)
    (hE : ∀ a b, env.ethLogs a b = Except.ok [])
    (hB : ∀ a b, env.baseLogs a b = Except.ok [])
    (hwf : wfFiles w.files) :
    (syncAgents env w).1.files = w.files ∧
    ∃ idx2, (syncAgents env w).1.indexFile = some idx2 ∧
      idx2.stats = some (recomputeStats w.files) ∧
      (syncAgents env w).2 = RunResult.done := by
  have hload : loadIndex w = idx := by
    unfold loadIndex
    rw [hidx]
    rfl
  have hres : resumePending env.forceRefresh idx = none := by
    unfold resumePending
    rw [hforce, if_neg (by simp), hpend]
  have hplan : planPhase env idx (w.files.map Prod.fst) =
      { inMem := idx, written := none, ids := [], ethBlock := env.ethHead, baseBlock := env.baseHead } := by
    unfold planPhase
    rw [hres]
    dsimp only
    unfold getMintEvents
    rw [mintScanLoop_no_mints env.ethLogs _ hE, mintScanLoop_no_mints env.baseLogs _ hB]
    rfl
  unfold syncAgents loopInit
  rw [hload]
  dsimp only
  rw [hplan]
  dsimp only
  rw [List.length_nil, fetchLoopGo_zero]
  dsimp only
  rw [if_neg (by simp)]
  rw [tally_recompute w.files zeroSyncStats hwf]
  dsimp only
  have hze : zeroSyncStats.ethereum = zeroChainStats := rfl
  have hzb : zeroSyncStats.base = zeroChainStats := rfl
  rw [hze, hzb, chainAdd_zero_left, chainAdd_zero_left]
  exact ⟨rfl, _, rfl, rfl, rfl⟩

/-- C7: running the sync twice in a row with no new on-chain mints (the
log queries of the second run all return no events, force-refresh is off, and
the first run completed) leaves every record file untouched — the second
run rewrites none of them — and produces an index whose stats equal the
direct recomputation of the per-chain counters from the full set of
record files on disk. -/
theorem c7_second_run_idempotent (env1 env2 : SyncEnv) (w0 : World)
    (hwf : wfFiles w0.files)
    (hdone : (syncAgents env1 w0).2 = RunResult.done)
    (hforce : env2.forceRefresh = false)
    (hE : ∀ a b, env2.ethLogs a b = Except.ok [])
    (hB : ∀ a b, env2.baseLogs a b = Except.ok []) :
    (syncAgents env2 (syncAgents env1 w0).1).1.files = (syncAgents env1 w0).1.files ∧
    ∃ idx2, (syncAgents env2 (syncAgents env1 w0).1).1.indexFile = some idx2 ∧
      idx2.stats = some (recomputeStats (syncAgents env1 w0).1.files) ∧
      (syncAgents env2 (syncAgents env1 w0).1).2 = RunResult.done := by
  obtain ⟨hwf1, idx1, hidx1, hpend1⟩ := syncAgents_done_shape env1 w0 hwf hdone
  exact syncAgents_quiet_run env2 (syncAgents env1 w0).1 idx1 hidx1 hpend1 hforce hE hB hwf1

/-- C7 witness: starting from an empty world, one completed run followed
by a quiet second run keeps the (empty) record set and recomputed stats. -/
theorem c7_second_run_idempotent_witness :
    (syncAgents c7Env (syncAgents c7Env { files := [], indexFile := none }).1).1.files =
      (syncAgents c7Env { files := [], indexFile := none }).1.files ∧
    ∃ idx2, (syncAgents c7Env (syncAgents c7Env { files := [], indexFile := none }).1).1.indexFile =
        some idx2 ∧
      idx2.stats = some (recomputeStats (syncAgents c7Env { files := [], indexFile := none }).1.files) ∧
      (syncAgents c7Env (syncAgents c7Env { files := [], indexFile := none }).1).2 = RunResult.done := by
  apply c7_second_run_idempotent
  · exact ⟨List.nodup_nil, fun p hp => absurd hp (List.not_mem_nil p)⟩
  · rfl
  · rfl
  · intro a b; rfl
  · intro a b; rfl
